import Mathlib

/-!
Verification of the neurox-options risk governor and OMS core.

Shallow embedding of the Python sources under `src/services`:
* `services/execution/oms_close.py` (CLOSE executor),
* `services/execution/oms_open.py` (OPEN intent issuer),
* `services/risk_governor/risk_mode.py` (risk-mode store),
* `services/risk_governor/portfolio_risk.py` (risk evaluator),
* `services/risk_governor/derisk_plan.py` (de-risk planner),
* `services/risk_governor/deallocate.py` (bounded de-risk reduction),
* `services/risk_governor/derisk_execute.py`,
* `services/tick.py` (orchestrator),
* `services/common/math/bs.py` and `services/risk_governor/main.py` (pricing).

Modelling conventions:
* Python `float` arithmetic in the decision plane (risk evaluator,
  de-risk planner, deallocation, position bookkeeping) is embedded as exact
  rational arithmetic over `ℚ`; Black–Scholes pricing is embedded over `ℝ`.
* JSON dictionaries are reified into records holding exactly the fields the
  code reads; `str.upper`, `str.strip` and `int()` are modelled character by
  character below.
* Timestamps are carried as epoch seconds (`ℚ`): `parse_iso` is the stdlib
  ISO-8601 parser, so an intent's `ts` field is modelled by its parsed epoch
  value.
-/

namespace NeuroxOptions

/-- Python `str.upper()` restricted to the ASCII data the system produces. -/
def pyUpper (s : String) : String := ⟨s.data.map Char.toUpper⟩

/-- Python `str.strip()`: drop leading and trailing whitespace. -/
def pyStrip (s : String) : String :=
  ⟨((s.data.dropWhile Char.isWhitespace).reverse.dropWhile Char.isWhitespace).reverse⟩

/-- Python `int()` applied to a float: truncation toward zero. -/
def pyInt (q : ℚ) : ℤ := if 0 ≤ q then ⌊q⌋ else ⌈q⌉

/-- Decimal digits of a natural number, most significant first
(fuel-structured so that proofs can evaluate it). -/
def natDigitsAux : ℕ → ℕ → List Char
  | 0, _ => []
  | fuel + 1, n =>
    if n < 10 then [Nat.digitChar n]
    else natDigitsAux fuel (n / 10) ++ [Nat.digitChar (n % 10)]

/-- Decimal rendering of a natural number (Python `str`). -/
def natStr (n : ℕ) : String := ⟨natDigitsAux (n + 1) n⟩

/-- Decimal rendering of an integer (Python `str`). -/
def intStr (i : ℤ) : String := (if i < 0 then "-" else "") ++ natStr i.natAbs

/-- Python string comparison (`<`) is lexicographic on code points. -/
def pyStrLtB (a b : String) : Bool := decide (a.data < b.data)

/-- Total `≤` used to drive the stable sorts standing in for Python
`list.sort`. -/
def pyStrLeB (a b : String) : Bool := !(pyStrLtB b a)

/-- Stable insertion step: `x` (originally leftmost) goes in front of the
first element it compares `≤` to. -/
def sInsert (le : α → α → Bool) (x : α) : List α → List α
  | [] => [x]
  | y :: ys => if le x y then x :: y :: ys else y :: sInsert le x ys

/-- Stable sort by a boolean total preorder. Python's `list.sort` is a
stable sort, so its output is this one for the same key order. -/
def sSort (le : α → α → Bool) : List α → List α
  | [] => []
  | x :: xs => sInsert le x (sSort le xs)

/-! ### `services/execution/oms_close.py` — pure core -/

/-- One entry of `positions_book.json`'s `positions` array
(`{symbol, net_qty}`). -/
structure PosEntry where
  symbol : String
  net_qty : Int
deriving Repr, DecidableEq

/-- One close action `{symbol, close_side, qty}` as carried by a close
intent (`qty` after the executor's `int(...)` coercion). -/
structure CloseAction where
  symbol : String
  close_side : String
  qty : Int
deriving Repr, DecidableEq

/-- The positions dictionary `pos_map : Dict[str, int]`, as an
insertion-ordered association list with unique keys (Python dict order). -/
abbrev PosMap := List (String × Int)

/-- `pos_map.get(sym, 0)`. -/
def mapGet (m : PosMap) (k : String) : Int :=
  match m.find? (fun p => p.1 == k) with
  | some p => p.2
  | none => 0

/-- `pos_map[sym] = v`: overwrite in place, else append (dict insertion
order). -/
def mapSet : PosMap → String → Int → PosMap
  | [], k, v => [(k, v)]
  | p :: rest, k, v => if p.1 == k then (k, v) :: rest else p :: mapSet rest k v

/-- `pos_map.pop(sym, None)`. -/
def mapPop : PosMap → String → PosMap
  | [], _ => []
  | p :: rest, k => if p.1 == k then rest else p :: mapPop rest k

/-- `positions_to_map` of `oms_close.py`: fold the book's entries into a
dict, skipping empty symbols. -/
def positions_to_map (book : List PosEntry) : PosMap :=
  book.foldl (fun m p => if p.symbol ≠ "" then mapSet m p.symbol p.net_qty else m) []

/-- `map_to_positions` of `oms_close.py`: drop flat entries, sort by
symbol. -/
def map_to_positions (m : PosMap) : List PosEntry :=
  (sSort (fun a b => pyStrLeB a.1 b.1) (m.filter (fun p => p.2 ≠ 0))).map
    (fun p => ⟨p.1, p.2⟩)

/-- `normalize_actions` of `oms_close.py`: clean each action, aggregate
quantities on the `(symbol, close_side)` key (dict insertion order), then
sort by `(symbol, close_side)`. -/
def normalize_actions (actions : List CloseAction) : List CloseAction :=
  let agg : List ((String × String) × Int) :=
    actions.foldl
      (fun acc a =>
        let sym := pyStrip a.symbol
        let side := pyStrip (pyUpper a.close_side)
        let qty := a.qty
        if sym = "" ∨ (side ≠ "BUY" ∧ side ≠ "SELL") ∨ qty ≤ 0 then acc
        else
          match acc.find? (fun kv => kv.1 == (sym, side)) with
          | some _ =>
              acc.map (fun kv => if kv.1 == (sym, side) then (kv.1, kv.2 + qty) else kv)
          | none => acc ++ [((sym, side), qty)])
      []
  sSort
    (fun a b =>
      pyStrLtB a.symbol b.symbol ||
        (a.symbol == b.symbol && pyStrLeB a.close_side b.close_side))
    (agg.map (fun kv => ⟨kv.1.1, kv.1.2, kv.2⟩))

/-- `validate_reduce_only` of `oms_close.py`: the list of breach messages
(empty means the batch is accepted). -/
def validate_reduce_only (actions : List CloseAction) (pos_map : PosMap) :
    List String :=
  actions.foldl
    (fun breaches a =>
      let sym := a.symbol
      let side := a.close_side
      let qty := a.qty
      let net := mapGet pos_map sym
      if net = 0 then
        breaches ++ [s!"REDUCE_ONLY_VIOLATION {sym} net=0 action={side} qty={intStr qty}"]
      else if net > 0 then
        breaches ++
          (if side ≠ "SELL" then
            [s!"REDUCE_ONLY_VIOLATION {sym} net={intStr net} requires SELL got {side}"]
          else []) ++
          (if qty > net then
            [s!"REDUCE_ONLY_VIOLATION {sym} qty {intStr qty} > net {intStr net}"]
          else [])
      else
        breaches ++
          (if side ≠ "BUY" then
            [s!"REDUCE_ONLY_VIOLATION {sym} net={intStr net} requires BUY got {side}"]
          else []) ++
          (if qty > -net then
            [s!"REDUCE_ONLY_VIOLATION {sym} qty {intStr qty} > abs(net) {intStr (-net)}"]
          else []))
    []

/-- `apply_fill` of `oms_close.py`: SELL decreases `net_qty`, BUY increases
it; a flat entry is popped from the map. -/
def apply_fill (pos_map : PosMap) (sym side : String) (qty : Int) : PosMap :=
  let net := mapGet pos_map sym
  let net' := if side = "SELL" then net - qty else if side = "BUY" then net + qty else net
  let m := mapSet pos_map sym net'
  if net' = 0 then mapPop m sym else m

/-- The executor's fill loop: apply every action of the batch in order. -/
def apply_fills (pos_map : PosMap) (actions : List CloseAction) : PosMap :=
  actions.foldl (fun m a => apply_fill m a.symbol a.close_side a.qty) pos_map

/-! ### File payloads and system state

Records reify the JSON state files, keeping exactly the fields the embedded
code reads (`ts` fields that are written but never read back by the embedded
logic are dropped). -/

/-- `state/risk_mode.json`: `{mode, reason}`. -/
structure RMFile where
  mode : String
  reason : String
deriving Repr, DecidableEq

/-- `state/close_intent.json`: its `ts` is carried as the parsed epoch
(`parse_iso` output) together with the raw action list. -/
structure CloseIntent where
  tsEpoch : ℚ
  actions : List CloseAction
deriving Repr, DecidableEq

/-- `state/oms_close_state.json`: the fields the claims inspect
(`state`, `reason`; a successful DONE write carries no reason). -/
structure CloseOut where
  state : String
  reason : Option String
deriving Repr, DecidableEq

/-- `state/oms_open_state.json`: the fields the claims inspect. -/
structure OpenOut where
  state : String
  reason : Option String
  deleted_stale_intent : Option Bool
  open_intent_written : Bool
deriving Repr, DecidableEq

/-- One gateway candidate of `state/gate_out.json` (`allow` plus the
`decision` fields the OPEN issuer's scorer reads). -/
structure Candidate where
  allow : Bool
  reasons : List String
  max_contracts : ℚ
deriving Repr, DecidableEq

/-- One row of `state/portfolio_greeks.json`'s `positions`. -/
structure GreekRow where
  symbol : String
  net_qty : Int
  delta : ℚ
  gamma : ℚ
  vega : ℚ
  theta : ℚ
  iv_src : String
deriving Repr, DecidableEq

/-- The `totals` object of `state/portfolio_greeks.json`. -/
structure GreekTotals where
  delta : ℚ
  gamma : ℚ
  vega : ℚ
  theta : ℚ
deriving Repr, DecidableEq

/-- `state/portfolio_greeks.json`. -/
structure GreeksSnapshot where
  positions : List GreekRow
  totals : GreekTotals
deriving Repr, DecidableEq

/-- The delta/gamma/vega running totals mutated by the de-risk planner. -/
structure Axes where
  delta : ℚ
  gamma : ℚ
  vega : ℚ
deriving Repr, DecidableEq

/-- Hard (or buffered) greek limits. -/
structure Lim where
  max_abs_delta : ℚ
  max_abs_gamma : ℚ
  max_abs_vega : ℚ
deriving Repr, DecidableEq

/-- One aggregated action of the de-risk planner's `actions` dict
(`close_side` stays `None` until the first contract of the symbol closes). -/
structure ActAgg where
  symbol : String
  close_side : Option String
  qty : Int
deriving Repr, DecidableEq

/-- `state/derisk_plan.json`: the fields its consumer reads. -/
structure PlanOut where
  status : String
  actions : List ActAgg
  end_totals : Axes
deriving Repr, DecidableEq

/-- The slice of `state/final_plan.json` read by `deallocate.py`:
`gate.order_plan.qty` and the two resolved leg symbols. -/
structure FinalPlan where
  qty : Int
  long_sym : String
  short_sym : String
deriving Repr, DecidableEq

/-- `state/dealloc_plan.json`: the fields the claims inspect. -/
structure DeallocOut where
  status : String
  requested_qty : Int
  allowed_qty : Int
deriving Repr, DecidableEq

/-- The durable state-file directory, as one record. `openIntentPresent`
tracks existence of `state/open_intent.json` (its payload is never read by
the embedded logic). Audit-only outputs (`open_plan.json`, `risk_eval.json`,
`derisk_exec.json`, the journal) are not tracked. -/
structure SysState where
  riskMode : Option RMFile
  positionsBook : Option (List PosEntry)
  closeIntent : Option CloseIntent
  openIntentPresent : Bool
  gateOut : Option (List (String × Candidate))
  greeks : Option GreeksSnapshot
  deriskPlan : Option PlanOut
  finalPlan : Option FinalPlan
  omsCloseOut : Option CloseOut
  omsOpenOut : Option OpenOut
  deallocOut : Option DeallocOut
  closeLockHeld : Bool
deriving Repr, DecidableEq

/-! ### `services/risk_governor/risk_mode.py` -/

/-- `set_risk_mode`: uppercase, clamp unknown modes to DEGRADED, rewrite the
risk-mode file. -/
def set_risk_mode (s : SysState) (mode reason : String) : SysState :=
  let mode_u := pyUpper mode
  let mode_u :=
    if mode_u ≠ "NORMAL" ∧ mode_u ≠ "DEGRADED" ∧ mode_u ≠ "HALT" then "DEGRADED"
    else mode_u
  {s with riskMode := some ⟨mode_u, reason⟩}

/-- `ensure_risk_mode_file`: first-boot initialization to NORMAL. -/
def ensure_risk_mode_file (s : SysState) : SysState :=
  if s.riskMode.isNone then set_risk_mode s "NORMAL" "boot" else s

/-- The parsed `RiskModeState` (its `mode` is the enum's string value). -/
structure RiskModeState where
  mode : String
  reason : String
deriving Repr, DecidableEq

/-- `get_risk_mode`: ensure the file, read it, uppercase the stored mode and
fall back to `RiskMode.NORMAL` when the string is not one of the three enum
values. Returns the parsed state together with the (possibly initialized)
file system. -/
def get_risk_mode (s : SysState) : RiskModeState × SysState :=
  let s' := ensure_risk_mode_file s
  let d := s'.riskMode.getD ⟨"NORMAL", "OK"⟩
  let mode := pyUpper d.mode
  let rm :=
    if mode = "NORMAL" ∨ mode = "DEGRADED" ∨ mode = "HALT" then mode else "NORMAL"
  (⟨rm, d.reason⟩, s')

/-- `allow_open_trades`: only NORMAL may open new risk. -/
def allow_open_trades (s : SysState) : Bool × SysState :=
  let (rm, s') := get_risk_mode s
  (rm.mode == "NORMAL", s')

/-- `allow_close_trades`: NORMAL and DEGRADED may reduce risk. -/
def allow_close_trades (s : SysState) : Bool × SysState :=
  let (rm, s') := get_risk_mode s
  (rm.mode == "NORMAL" || rm.mode == "DEGRADED", s')

/-! ### `services/execution/oms_close.py` — `main` -/

/-- The freshness age: `int(now - parse_iso(ts))`, clamped at zero. -/
def close_intent_age (now : ℚ) (intent : CloseIntent) : ℤ :=
  let age0 := pyInt (now - intent.tsEpoch)
  if age0 < 0 then 0 else age0

/-- The CLOSE executor's `main`, with `now` the wall clock (epoch seconds)
and `max_age` the parsed `OMS_INTENT_MAX_AGE_SEC`. The `finally` clause
releases the lock on every path, so `closeLockHeld` is never left set by a
run that acquired it. -/
def oms_close_main (now : ℚ) (max_age : ℤ) (s : SysState) : SysState :=
  if s.closeLockHeld then
    {s with omsCloseOut := some ⟨"LOCKED", some "ANOTHER_OMS_CLOSE_RUNNING"⟩}
  else
    let rms := get_risk_mode s
    let rm := rms.1
    let s := rms.2
    if ¬ (rm.mode = "NORMAL" ∨ rm.mode = "DEGRADED") then
      {s with omsCloseOut := some ⟨"HALT", some (s!"RISK_MODE_BLOCKS_CLOSE:{rm.reason}")⟩}
    else
      match s.closeIntent with
      | none => {s with omsCloseOut := some ⟨"NO_INTENT", some "NO_CLOSE_INTENT"⟩}
      | some intent =>
        let age_sec := close_intent_age now intent
        if age_sec > max_age then
          let reason := s!"STALE_INTENT age_sec={intStr age_sec} > max_age={intStr max_age}"
          {s with omsCloseOut := some ⟨"REJECT", some reason⟩}
        else
          let actions := normalize_actions intent.actions
          if actions.isEmpty then
            {s with closeIntent := none,
                    omsCloseOut := some ⟨"DONE", some "NO_ACTIONS_IN_INTENT"⟩}
          else
            let pos_map := positions_to_map ((s.positionsBook).getD [])
            let breaches := validate_reduce_only actions pos_map
            if ¬ breaches.isEmpty then
              {s with omsCloseOut := some ⟨"REJECT", some "REDUCE_ONLY_VIOLATION"⟩}
            else
              let pos_map' := apply_fills pos_map actions
              {s with positionsBook := some (map_to_positions pos_map'),
                      closeIntent := none,
                      omsCloseOut := some ⟨"DONE", none⟩}

/-! ### `services/execution/oms_open.py` -/

/-- `load_risk_mode`: the raw dict, or the UNKNOWN placeholder when the file
is missing or carries no `mode` key. -/
def load_risk_mode (s : SysState) : RMFile :=
  match s.riskMode with
  | some d => d
  | none => ⟨"UNKNOWN", "missing_or_invalid"⟩

/-- `is_open_allowed_by_mode`: NORMAL opens; DEGRADED, HALT and anything
else (UNKNOWN included) blocks. -/
def is_open_allowed_by_mode (rm : RMFile) : Bool × String :=
  let mode := pyUpper rm.mode
  let reason := rm.reason
  if mode = "NORMAL" then (true, "")
  else if mode = "DEGRADED" then (false, s!"RISK_MODE_DEGRADED_OPEN_BLOCKED:{reason}")
  else if mode = "HALT" then (false, s!"RISK_MODE_HALT_OPEN_BLOCKED:{reason}")
  else (false, s!"RISK_MODE_UNKNOWN_OPEN_BLOCKED:{reason}")

/-- `candidate_score`. -/
def candidate_score (c : Candidate) : ℚ :=
  (if c.allow then 1 else 0) * 1000 + c.max_contracts * 10 - (c.reasons.length : ℚ) * 50

/-- `select_best_candidate`: first strict maximum of the score over the
candidates in file order, starting from the `-1e18` sentinel. -/
def select_best_candidate (cands : List (String × Candidate)) :
    Option (String × Candidate) :=
  (cands.foldl
    (fun (acc : Option (String × Candidate) × ℚ) kv =>
      let sc := candidate_score kv.2
      if sc > acc.2 then (some kv, sc) else acc)
    (none, -((10 : ℚ) ^ 18))).1

/-- The OPEN intent issuer's `main` (the audit-only `open_plan.json` write
is not tracked). -/
def oms_open_main (s : SysState) : SysState :=
  let rm := load_risk_mode s
  let gate := is_open_allowed_by_mode rm
  let cands := (s.gateOut).getD []
  let best := select_best_candidate cands
  if gate.1 = false then
    let deleted := s.openIntentPresent
    {s with openIntentPresent := false,
            omsOpenOut := some ⟨"OPEN_BLOCKED", some gate.2, some deleted, false⟩}
  else
    match best with
    | none =>
      let deleted := s.openIntentPresent
      {s with openIntentPresent := false,
              omsOpenOut := some ⟨"NO_CANDIDATE", some "NO_GATE_CANDIDATE", some deleted, false⟩}
    | some (_, c) =>
      if ¬ c.allow then
        let deleted := s.openIntentPresent
        {s with openIntentPresent := false,
                omsOpenOut :=
                  some ⟨"CANDIDATE_BLOCKED", some "CANDIDATE_NOT_ALLOWED", some deleted, false⟩}
      else
        {s with openIntentPresent := true,
                omsOpenOut := some ⟨"DONE", none, none, true⟩}

/-! ### `services/risk_governor/portfolio_risk.py` -/

/-- Zero-pad a digit string on the left to width `n`. -/
def padZeros (str : String) (n : ℕ) : String :=
  ⟨List.replicate (n - str.length) '0'⟩ ++ str

/-- Python fixed-point formatting `f"{x:.nd f}"`: round half-to-even at
`nd` decimals, then render with exactly `nd` fractional digits. -/
def fmtFixed (q : ℚ) (nd : ℕ) : String :=
  let scaled := q * (10 : ℚ) ^ nd
  let fl : ℤ := ⌊scaled⌋
  let frac := scaled - fl
  let r : ℤ :=
    if frac < 1/2 then fl
    else if 1/2 < frac then fl + 1
    else if fl % 2 = 0 then fl else fl + 1
  let sign := if r < 0 then "-" else ""
  let a := r.natAbs
  if nd = 0 then sign ++ natStr a
  else sign ++ natStr (a / 10 ^ nd) ++ "." ++ padZeros (natStr (a % 10 ^ nd)) nd

/-- The default hard limits of `load_limits` (`Limits` dataclass). -/
def load_limits : Lim := ⟨200, 10, 20000⟩

/-- `compute_breaches`: `(mode, reason, breaches)`. The greeks builder emits
no `abs_*` keys, so the absolute totals are `abs` of the signed totals. -/
def compute_breaches (totals : GreekTotals) (lim : Lim) :
    String × String × List String :=
  let abs_delta := |totals.delta|
  let abs_gamma := |totals.gamma|
  let abs_vega := |totals.vega|
  let breaches :=
    (if abs_delta > lim.max_abs_delta then
      [s!"DELTA_LIMIT {fmtFixed abs_delta 2} > {fmtFixed lim.max_abs_delta 1}"]
    else []) ++
    (if abs_gamma > lim.max_abs_gamma then
      [s!"GAMMA_LIMIT {fmtFixed abs_gamma 2} > {fmtFixed lim.max_abs_gamma 1}"]
    else []) ++
    (if abs_vega > lim.max_abs_vega then
      [s!"VEGA_LIMIT {fmtFixed abs_vega 2} > {fmtFixed lim.max_abs_vega 1}"]
    else [])
  if ¬ breaches.isEmpty then ("HALT", String.intercalate " | " breaches, breaches)
  else ("NORMAL", "OK", breaches)

/-- `has_iv_fallback`: any position whose uppercased `iv_src` is one of
FALLBACK_DEFAULT, FALLBACK, DEFAULT. -/
def has_iv_fallback (g : GreeksSnapshot) : Bool :=
  g.positions.any (fun p =>
    pyUpper p.iv_src == "FALLBACK_DEFAULT" || pyUpper p.iv_src == "FALLBACK" ||
      pyUpper p.iv_src == "DEFAULT")

/-- The risk evaluator's `main`: decide from the greeks snapshot, downgrade
NORMAL to DEGRADED on IV fallback, rewrite `risk_mode.json` (the audit
`risk_eval.json` is not tracked). A missing snapshot reads as `{}`, i.e.
zero totals and no positions. -/
def portfolio_risk_main (s : SysState) : SysState :=
  let g := (s.greeks).getD ⟨[], ⟨0, 0, 0, 0⟩⟩
  let lim := load_limits
  let mr := compute_breaches g.totals lim
  let iv_fallback := has_iv_fallback g
  let mode := mr.1
  let reason := mr.2.1
  let mode_reason :=
    if mode = "NORMAL" ∧ iv_fallback then ("DEGRADED", "IV_FALLBACK_DEFAULT_PRESENT")
    else (mode, reason)
  {s with riskMode := some ⟨mode_reason.1, mode_reason.2⟩}

/-! ### `services/risk_governor/derisk_plan.py` -/

/-- `sgn`. -/
def sgn (x : ℤ) : ℤ := if x > 0 then 1 else if x < 0 then -1 else 0

/-- `buffered_limits`: target band at `buffer_pct` of the hard limits. -/
def buffered_limits (limits : Lim) (buffer_pct : ℚ) : Lim :=
  ⟨limits.max_abs_delta * buffer_pct, limits.max_abs_gamma * buffer_pct,
    limits.max_abs_vega * buffer_pct⟩

/-- `within_limits` on the planner's running totals. -/
def within_limits (t : Axes) (limits : Lim) : Bool :=
  decide (|t.delta| ≤ limits.max_abs_delta) &&
    decide (|t.gamma| ≤ limits.max_abs_gamma) &&
    decide (|t.vega| ≤ limits.max_abs_vega)

/-- `per_contract_from_row`: position-weighted greeks divided by the net
quantity (zero row maps to zero). -/
def per_contract_from_row (row : GreekRow) : Axes :=
  if row.net_qty = 0 then ⟨0, 0, 0⟩
  else ⟨row.delta / (row.net_qty : ℚ), row.gamma / (row.net_qty : ℚ),
        row.vega / (row.net_qty : ℚ)⟩

/-- `close_one_contract_effect`. -/
def close_one_contract_effect (row : GreekRow) : Axes :=
  let pc := per_contract_from_row row
  let direction := sgn row.net_qty
  ⟨-pc.delta * (direction : ℚ), -pc.gamma * (direction : ℚ), -pc.vega * (direction : ℚ)⟩

/-- `red_amount` inside `score_row`. -/
def red_amount (x dx : ℚ) : ℚ := max 0 (|x| - |x + dx|)

/-- `score_row`. -/
def score_row (row : GreekRow) (totals : Axes) (limits : Lim) : ℚ :=
  let d_over := max 0 (|totals.delta| - limits.max_abs_delta)
  let g_over := max 0 (|totals.gamma| - limits.max_abs_gamma)
  let v_over := max 0 (|totals.vega| - limits.max_abs_vega)
  let eff := close_one_contract_effect row
  5 * v_over * red_amount totals.vega eff.vega +
    3 * g_over * red_amount totals.gamma eff.gamma +
    1 * d_over * red_amount totals.delta eff.delta

/-- One recorded greedy step: the picked row, the totals before and after
applying its one-contract close effect. -/
structure StepTrace where
  row : GreekRow
  before : Axes
  after : Axes
deriving Repr, DecidableEq

/-- `work[sym] = row`: overwrite the working row in place, else append
(Python dict keyed by symbol). -/
def workInsert (w : List GreekRow) (r : GreekRow) : List GreekRow :=
  if w.any (fun x => x.symbol == r.symbol) then
    w.map (fun x => if x.symbol == r.symbol then r else x)
  else w ++ [r]

/-- `work.pop(sym, None)`. -/
def workPop (w : List GreekRow) (sym : String) : List GreekRow :=
  match w with
  | [] => []
  | x :: xs => if x.symbol == sym then xs else x :: workPop xs sym

/-- The planner's `while` loop. Recursion is by explicit fuel; every
iteration either increments `closed` (bounded by `max_close`) or shrinks
`work`, so fuel `max_close + work.length + 1` is never exhausted. A step
trace is recorded alongside the Python state. -/
def derisk_loop (target : Lim) (max_close : ℕ) :
    ℕ → ℕ → List GreekRow → Axes → List ActAgg → List StepTrace →
      Axes × List ActAgg × List StepTrace
  | 0, _, _, totals, acts, tr => (totals, acts, tr)
  | fuel + 1, closed, work, totals, acts, tr =>
    if closed < max_close ∧ within_limits totals target = false ∧ work ≠ [] then
      let rows := sSort
        (fun a b => decide (score_row b totals target ≤ score_row a totals target)) work
      match rows with
      | [] => (totals, acts, tr)
      | best :: _ =>
        if score_row best totals target ≤ 0 then (totals, acts, tr)
        else
          let nq := best.net_qty
          let direction := sgn nq
          if direction = 0 then
            derisk_loop target max_close fuel closed (workPop work best.symbol) totals acts tr
          else
            let close_side := if nq > 0 then "SELL" else "BUY"
            let eff := close_one_contract_effect best
            let totals' : Axes :=
              ⟨totals.delta + eff.delta, totals.gamma + eff.gamma, totals.vega + eff.vega⟩
            let best' := {best with net_qty := nq - direction}
            let work' := workInsert work best'
            let acts' := acts.map (fun a =>
              if a.symbol == best.symbol then
                {a with close_side := some close_side, qty := a.qty + 1}
              else a)
            let work'' := if best'.net_qty = 0 then workPop work' best.symbol else work'
            derisk_loop target max_close fuel (closed + 1) work'' totals' acts'
              (tr ++ [⟨best, totals, totals'⟩])
    else (totals, acts, tr)

/-- Default hard limits of `build_derisk_plan`. -/
def derisk_hard_limits : Lim := ⟨200, 10, 20000⟩

/-- `build_derisk_plan` on a greeks snapshot, returning the plan file
payload together with the instrumented step trace. -/
def build_derisk_plan (g : GreeksSnapshot) (hard_limits : Lim := derisk_hard_limits)
    (buffer_pct : ℚ := 9/10) (max_contracts_to_close : ℕ := 500) :
    PlanOut × List StepTrace :=
  let target_limits := buffered_limits hard_limits buffer_pct
  let totals : Axes := ⟨g.totals.delta, g.totals.gamma, g.totals.vega⟩
  let positions := g.positions.filter (fun p => p.net_qty ≠ 0)
  if within_limits totals target_limits then
    ({status := "NO_ACTION", actions := [], end_totals := totals}, [])
  else
    let work := positions.foldl workInsert []
    let acts0 : List ActAgg := work.map (fun r => ⟨r.symbol, none, 0⟩)
    let res := derisk_loop target_limits max_contracts_to_close
      (max_contracts_to_close + work.length + 1) 0 work totals acts0 []
    let action_list := res.2.1.filter (fun a => a.qty > 0)
    let status := if within_limits res.1 target_limits then "OK" else "PARTIAL"
    ({status := status, actions := action_list, end_totals := res.1}, res.2.2)

/-- The planner's `main`: read the greeks snapshot, write
`state/derisk_plan.json` (a missing snapshot raises, leaving the state
untouched). -/
def derisk_plan_main (s : SysState) : SysState :=
  match s.greeks with
  | none => s
  | some g => {s with deriskPlan := some (build_derisk_plan g).1}

/-! ### `services/risk_governor/deallocate.py` -/

/-- The feasibility test `ok(q)` of `max_qty_with_limits`. -/
def dealloc_ok (base inc : Axes) (limits : Lim) (q : ℤ) : Bool :=
  decide (|base.delta + (q : ℚ) * inc.delta| ≤ limits.max_abs_delta) &&
    decide (|base.gamma + (q : ℚ) * inc.gamma| ≤ limits.max_abs_gamma) &&
    decide (|base.vega + (q : ℚ) * inc.vega| ≤ limits.max_abs_vega)

/-- The binary search of `max_qty_with_limits` (fuel-structured; each pass
shrinks `hi - lo`, so fuel `qty_max + 2` suffices). -/
def dealloc_search (ok : ℤ → Bool) : ℕ → ℤ → ℤ → ℤ → ℤ
  | 0, _, _, best => best
  | fuel + 1, lo, hi, best =>
    if lo ≤ hi then
      let mid := Int.fdiv (lo + hi) 2
      if ok mid then dealloc_search ok fuel (mid + 1) hi mid
      else dealloc_search ok fuel lo (mid - 1) best
    else best

/-- `max_qty_with_limits`: largest `q ∈ [0, qty_max]` keeping all three
axes inside the limits. -/
def max_qty_with_limits (base inc : Axes) (limits : Lim) (qty_max : ℤ) : ℤ :=
  dealloc_search (dealloc_ok base inc limits) (qty_max + 2).toNat 0 qty_max 0

/-- Default limits of `deallocate.main`. -/
def dealloc_limits : Lim := ⟨200, 10, 20000⟩

/-- The base totals `deallocate.py` reads from the greeks snapshot. -/
def dealloc_base (g : GreeksSnapshot) : Axes := ⟨g.totals.delta, g.totals.gamma, g.totals.vega⟩

/-- The per-spread greek increment of `deallocate.main`: long-leg plus
short-leg per-contract greeks. -/
def dealloc_inc (long_row short_row : GreekRow) : Axes :=
  let lp := per_contract_from_row long_row
  let sp := per_contract_from_row short_row
  ⟨lp.delta + sp.delta, lp.gamma + sp.gamma, lp.vega + sp.vega⟩

/-- `deallocate.main`: per-contract increments from the two resolved legs,
bounded reduction, then the partial-success risk-mode downgrade
(`DEGRADED` when `allowed > 0`, `HALT` otherwise). A missing input file or
a flat leg raises before any risk-mode write. -/
def dealloc_main (s : SysState) (limits : Lim := dealloc_limits) : SysState :=
  match s.finalPlan, s.greeks with
  | some plan, some g =>
    let qty_req := plan.qty
    match g.positions.find? (fun p => p.symbol == plan.long_sym),
        g.positions.find? (fun p => p.symbol == plan.short_sym) with
    | some long_row, some short_row =>
      if long_row.net_qty = 0 ∨ short_row.net_qty = 0 then s
      else
        let allowed := max_qty_with_limits (dealloc_base g)
          (dealloc_inc long_row short_row) limits qty_req
        let s := {s with deallocOut := some ⟨"OK", qty_req, allowed⟩}
        if allowed > 0 then
          set_risk_mode s "DEGRADED" (s!"DEALLOC_ALLOWED_QTY={intStr allowed}")
        else set_risk_mode s "HALT" "DEALLOC_ZERO_ALLOWED"
    | _, _ => {s with deallocOut := some ⟨"CANNOT_DEALLOC", qty_req, 0⟩}
  | _, _ => s

/-! ### `services/risk_governor/derisk_execute.py` -/

/-- `derisk_execute.main`: turn the plan's actions into a fresh
`close_intent.json`, or delete a stale intent when the plan carries no
actions (`now` is the wall clock stamped into the new intent). -/
def derisk_execute_main (now : ℚ) (s : SysState) : SysState :=
  match s.deriskPlan with
  | none => s
  | some plan =>
    if (plan.status ≠ "OK" ∧ plan.status ≠ "PARTIAL") ∨ plan.actions.isEmpty then
      {s with closeIntent := none}
    else
      let actions := plan.actions.map (fun a => (⟨a.symbol, a.close_side.getD "", a.qty⟩ : CloseAction))
      {s with closeIntent := some ⟨now, actions⟩}

/-! ### `services/tick.py` -/

/-- One recorded tick step: stage name and whether it returned 0. -/
structure TickStep where
  name : String
  ok : Bool
deriving Repr, DecidableEq

/-- Observable tick events, in order: stage launches, the final
`tick_state.json` write, the lock release. -/
inductive TickEvent where
  | runStage (name : String)
  | writeTickState
  | releaseLock
deriving Repr, DecidableEq

/-- Result of one orchestrator run. -/
structure TickResult where
  locked : Bool
  ok : Bool
  halted_by : Option String
  steps : List TickStep
  events : List TickEvent
deriving Repr, DecidableEq

/-- The stage sequence hard-coded in `tick.main`, in program order. -/
def tick_stages : List String :=
  ["portfolio.greeks", "risk_governor.portfolio_risk", "risk_governor.derisk_plan",
   "risk_governor.derisk_execute", "pretrade_gateway.gateway", "execution.oms_open",
   "execution.oms_open_exec", "execution.oms_close"]

/-- Run the critical stages in order, stopping after the first failure
(`outcome` abstracts each subprocess's success). -/
def tick_run (outcome : String → Bool) : List String → List TickStep × Option String
  | [] => ([], none)
  | n :: rest =>
    if outcome n then
      let r := tick_run outcome rest
      (⟨n, true⟩ :: r.1, r.2)
    else ([⟨n, false⟩], some n)

/-- `tick.main`: lock, run stages, and in the `finally` clause write the
tick state before releasing the lock. A contended lock writes the LOCKED
tick state and returns at once. -/
def tick_main (lock_held : Bool) (outcome : String → Bool) : TickResult :=
  if lock_held then
    {locked := true, ok := false, halted_by := none, steps := [],
     events := [TickEvent.writeTickState]}
  else
    let r := tick_run outcome tick_stages
    {locked := false, ok := r.2.isNone, halted_by := r.2, steps := r.1,
     events := (r.1.map (fun st => TickEvent.runStage st.name)) ++
       [TickEvent.writeTickState, TickEvent.releaseLock]}

/-! ### `services/common/math/bs.py`

Python floats become real numbers here; `math.erf` is the error function,
defined below by its integral since this Mathlib has no bundled `erf`. -/

/-- `math.erf`. -/
noncomputable def erf (x : ℝ) : ℝ :=
  2 / Real.sqrt Real.pi * ∫ t in (0:ℝ)..x, Real.exp (-(t ^ 2))

/-- `norm_cdf` of `bs.py` (also of `risk_governor/main.py`, same formula):
standard normal CDF via `erf`. -/
noncomputable def norm_cdf (x : ℝ) : ℝ := 0.5 * (1 + erf (x / Real.sqrt 2))

/-- `bs_d1_d2` of `bs.py`: `none` on non-positive parameters (the Python
`(None, None)`). -/
noncomputable def bs_d1_d2 (S K r sigma T : ℝ) : Option (ℝ × ℝ) :=
  if S ≤ 0 ∨ K ≤ 0 ∨ T ≤ 0 ∨ sigma ≤ 0 then none
  else
    let vsqrt := sigma * Real.sqrt T
    let d1 := (Real.log (S / K) + (r + 0.5 * sigma * sigma) * T) / vsqrt
    some (d1, d1 - vsqrt)

/-- `bs_price` of `bs.py`. -/
noncomputable def bs_price (S K r sigma T : ℝ) (is_call : Bool) : Option ℝ :=
  match bs_d1_d2 S K r sigma T with
  | none => none
  | some (d1, d2) =>
    if is_call then some (S * norm_cdf d1 - K * Real.exp (-r * T) * norm_cdf d2)
    else some (K * Real.exp (-r * T) * norm_cdf (-d2) - S * norm_cdf (-d1))

/-! ### `services/risk_governor/main.py` -/

/-- `bs_price` of `risk_governor/main.py`: intrinsic value when `T ≤ 0` or
`iv ≤ 0`, Black–Scholes otherwise. -/
noncomputable def rg_bs_price (S K r T iv : ℝ) (is_call : Bool) : ℝ :=
  if T ≤ 0 ∨ iv ≤ 0 then max 0 (if is_call then S - K else K - S)
  else
    let d1 := (Real.log (S / K) + (r + 0.5 * iv ^ 2) * T) / (iv * Real.sqrt T)
    let d2 := d1 - iv * Real.sqrt T
    if is_call then S * norm_cdf d1 - K * Real.exp (-r * T) * norm_cdf d2
    else K * Real.exp (-r * T) * norm_cdf (-d2) - S * norm_cdf (-d1)

/-- The `RiskDecision` dataclass (`max_contracts` after Python's `int`). -/
structure RiskDecision where
  allow : Bool
  max_contracts : ℤ
  reasons : List String
  worst_pnl_gap10 : ℝ
  worst_pnl_combo : ℝ

/-- The environment variables `decide_vertical_from_plan` reads, with the
source's defaults. -/
structure RGEnv where
  spot_default : ℝ := 600
  risk_free_rate : ℝ := 0.03
  iv_long_default : ℝ := 0.35
  iv_short_default : ℝ := 0.30
  account_equity : ℝ := 100000
  max_defined_risk_pct : ℝ := 0.02

/-- The `-10%` gap scenario PnL on one spread (`pnl_gap` in the source). -/
noncomputable def rg_pnl_gap (env : RGEnv) (is_call : Bool) (K_long K_short : ℝ)
    (T : ℝ) : ℝ :=
  let S0 := env.spot_default
  let r := env.risk_free_rate
  let S_gap := S0 * 0.90
  (rg_bs_price S_gap K_long r T env.iv_long_default is_call -
      rg_bs_price S_gap K_short r T env.iv_short_default is_call) -
    (rg_bs_price S0 K_long r T env.iv_long_default is_call -
      rg_bs_price S0 K_short r T env.iv_short_default is_call)

/-- The `-7%` + vol-shock scenario PnL (`pnl_combo` in the source): each
leg's sigma is multiplied by `1.10`. -/
noncomputable def rg_pnl_combo (env : RGEnv) (is_call : Bool) (K_long K_short : ℝ)
    (T : ℝ) : ℝ :=
  let S0 := env.spot_default
  let r := env.risk_free_rate
  let S_combo := S0 * 0.93
  let iv_long_up := env.iv_long_default * 1.10
  let iv_short_up := env.iv_short_default * 1.10
  (rg_bs_price S_combo K_long r T iv_long_up is_call -
      rg_bs_price S_combo K_short r T iv_short_up is_call) -
    (rg_bs_price S0 K_long r T env.iv_long_default is_call -
      rg_bs_price S0 K_short r T env.iv_short_default is_call)

/-- `T = max(dte_days / 365.0, 1e-6)`. -/
noncomputable def rg_T (dte_days : ℤ) : ℝ := max ((dte_days : ℝ) / 365) 1e-6

/-- `decide_vertical_from_plan` of `risk_governor/main.py` (`underlier` is
accepted and unused, as in the source). -/
noncomputable def decide_vertical_from_plan (env : RGEnv) (underlier : String)
    (is_call : Bool) (K_long K_short : ℝ) (dte_days : ℤ) (qty_requested : ℤ) :
    RiskDecision :=
  let _ := underlier
  let T := rg_T dte_days
  let pnl_gap := rg_pnl_gap env is_call K_long K_short T
  let pnl_combo := rg_pnl_combo env is_call K_long K_short T
  let worst_1 := min pnl_gap pnl_combo
  let max_trade_loss_usd := env.account_equity * env.max_defined_risk_pct
  let loss_mag := max 0 (-worst_1)
  if loss_mag ≤ 0 then
    ⟨true, qty_requested, [], pnl_gap, pnl_combo⟩
  else
    let max_contracts : ℤ := ⌊max_trade_loss_usd / loss_mag⌋
    ⟨max_contracts > 0, min max_contracts qty_requested,
      if max_contracts ≤ 0 then ["SIZING_TO_ZERO_BY_LIMITS"] else [],
      pnl_gap, pnl_combo⟩

/-- The claim's scenario-B PnL, following the spec's words: spot `−7%` and
each leg's sigma increased additively by `0.10` (compare `rg_pnl_combo`,
which multiplies by `1.10`). -/
noncomputable def spec_pnl_combo (env : RGEnv) (is_call : Bool) (K_long K_short : ℝ)
    (T : ℝ) : ℝ :=
  let S0 := env.spot_default
  let r := env.risk_free_rate
  let S_combo := S0 * 0.93
  let iv_long_up := env.iv_long_default + 0.10
  let iv_short_up := env.iv_short_default + 0.10
  (rg_bs_price S_combo K_long r T iv_long_up is_call -
      rg_bs_price S_combo K_short r T iv_short_up is_call) -
    (rg_bs_price S0 K_long r T env.iv_long_default is_call -
      rg_bs_price S0 K_short r T env.iv_short_default is_call)

/-- The claim's sizing rule, following the spec's words:
`⌊(equity · max_defined_risk_pct) / |worst_1|⌋` clipped to the requested
quantity, with `worst_1 = min(PnL_A, PnL_B)`. -/
noncomputable def spec_max_contracts (env : RGEnv) (is_call : Bool)
    (K_long K_short : ℝ) (dte_days : ℤ) (qty_requested : ℤ) : ℤ :=
  let T := rg_T dte_days
  let worst_1 := min (rg_pnl_gap env is_call K_long K_short T)
    (spec_pnl_combo env is_call K_long K_short T)
  min ⌊env.account_equity * env.max_defined_risk_pct / |worst_1|⌋ qty_requested

/-! ## Theorems -/

/-- The error function is odd. -/
theorem erf_neg (x : ℝ) : erf (-x) = -erf x := by
  unfold erf
  have h1 : (∫ t in (0:ℝ)..x, Real.exp (-((-t) ^ 2))) =
      ∫ t in (-x)..(-(0:ℝ)), Real.exp (-(t ^ 2)) :=
    intervalIntegral.integral_comp_neg (fun t => Real.exp (-(t ^ 2)))
  have h2 : (∫ t in (0:ℝ)..x, Real.exp (-(t ^ 2))) =
      ∫ t in (-x)..(0:ℝ), Real.exp (-(t ^ 2)) := by
    simpa using h1
  have h3 : (∫ t in (0:ℝ)..(-x), Real.exp (-(t ^ 2))) =
      -∫ t in (-x)..(0:ℝ), Real.exp (-(t ^ 2)) :=
    intervalIntegral.integral_symm (-x) 0
  rw [h3, ← h2]
  ring

/-- `Φ(x) + Φ(-x) = 1` for the embedded normal CDF. -/
theorem norm_cdf_add_neg (x : ℝ) : norm_cdf x + norm_cdf (-x) = 1 := by
  unfold norm_cdf
  rw [neg_div, erf_neg]
  ring

/-- `d1` of `bs_d1_d2` on positive parameters, as a plain expression. -/
noncomputable def bs_d1 (S K r sigma T : ℝ) : ℝ :=
  (Real.log (S / K) + (r + 0.5 * sigma * sigma) * T) / (sigma * Real.sqrt T)

/-- The call branch of `bs_price` on positive parameters. -/
theorem bs_price_call_eq (S K r sigma T : ℝ)
    (h : ¬(S ≤ 0 ∨ K ≤ 0 ∨ T ≤ 0 ∨ sigma ≤ 0)) :
    bs_price S K r sigma T true = some
      (S * norm_cdf (bs_d1 S K r sigma T) -
        K * Real.exp (-r * T) * norm_cdf (bs_d1 S K r sigma T - sigma * Real.sqrt T)) := by
  unfold bs_price bs_d1_d2 bs_d1
  rw [if_neg h]
  rfl

/-- The put branch of `bs_price` on positive parameters. -/
theorem bs_price_put_eq (S K r sigma T : ℝ)
    (h : ¬(S ≤ 0 ∨ K ≤ 0 ∨ T ≤ 0 ∨ sigma ≤ 0)) :
    bs_price S K r sigma T false = some
      (K * Real.exp (-r * T) * norm_cdf (-(bs_d1 S K r sigma T - sigma * Real.sqrt T)) -
        S * norm_cdf (-(bs_d1 S K r sigma T))) := by
  unfold bs_price bs_d1_d2 bs_d1
  rw [if_neg h]
  rfl

/-- Call minus put at shared `d1, d2` collapses by `Φ(x) + Φ(-x) = 1`. -/
theorem call_sub_put (S Ke d1 d2 : ℝ) :
    (S * norm_cdf d1 - Ke * norm_cdf d2) -
      (Ke * norm_cdf (-d2) - S * norm_cdf (-d1)) = S - Ke := by
  have h1 := norm_cdf_add_neg d1
  have h2 := norm_cdf_add_neg d2
  linear_combination S * h1 - Ke * h2

/-- C10. Black–Scholes put–call parity at the pricing layer: for all
positive `S, K, T, sigma` and any rate `r`, the call and put prices of
`bs.py` both exist and their difference equals `S - K·exp(-rT)` (so it is
within `1e-6` of it). -/
theorem bs_put_call_parity (S K T sigma r : ℝ) (hS : 0 < S) (hK : 0 < K)
    (hT : 0 < T) (hsigma : 0 < sigma) :
    ∃ c p, bs_price S K r sigma T true = some c ∧
      bs_price S K r sigma T false = some p ∧
      c - p = S - K * Real.exp (-r * T) ∧
      |c - p - (S - K * Real.exp (-r * T))| ≤ 1e-6 := by
  have hguard : ¬(S ≤ 0 ∨ K ≤ 0 ∨ T ≤ 0 ∨ sigma ≤ 0) := by
    push_neg
    exact ⟨hS, hK, hT, hsigma⟩
  rw [bs_price_call_eq S K r sigma T hguard, bs_price_put_eq S K r sigma T hguard]
  have heq := call_sub_put S (K * Real.exp (-r * T)) (bs_d1 S K r sigma T)
    (bs_d1 S K r sigma T - sigma * Real.sqrt T)
  refine ⟨_, _, rfl, rfl, heq, ?_⟩
  rw [heq, sub_self, abs_zero]
  norm_num

/-- Witness for C10 at `S = K = T = sigma = 1`, `r = 0`. -/
theorem bs_put_call_parity_witness :
    ∃ c p, bs_price 1 1 0 1 1 true = some c ∧ bs_price 1 1 0 1 1 false = some p ∧
      c - p = 1 - 1 * Real.exp (-0 * 1) ∧
      |c - p - (1 - 1 * Real.exp (-0 * 1))| ≤ 1e-6 :=
  bs_put_call_parity 1 1 1 1 0 (by norm_num) (by norm_num) (by norm_num) (by norm_num)

/-- The all-empty state directory, shared base point for concrete runs. -/
def emptyState : SysState :=
  ⟨none, none, none, false, none, none, none, none, none, none, none, false⟩

/-- C2. OPEN-issuer safety override: whenever the loaded risk mode is not
NORMAL (file missing included, since that loads as UNKNOWN), the issuer
deletes any existing `open_intent`, writes none, and exits with state
`OPEN_BLOCKED`, reporting `deleted_stale_intent = true` exactly when an
intent had existed; hence no `open_intent.json` exists at its exit. -/
theorem open_issuer_safety_override (s : SysState)
    (h : pyUpper (load_risk_mode s).mode ≠ "NORMAL") :
    (oms_open_main s).openIntentPresent = false ∧
    (oms_open_main s).omsOpenOut = some ⟨"OPEN_BLOCKED",
      some (is_open_allowed_by_mode (load_risk_mode s)).2,
      some s.openIntentPresent, false⟩ := by
  have hblocked : (is_open_allowed_by_mode (load_risk_mode s)).1 = false := by
    unfold is_open_allowed_by_mode
    rw [if_neg h]
    split
    · rfl
    · split <;> rfl
  unfold oms_open_main
  simp only [hblocked]
  exact ⟨rfl, rfl⟩

/-- The risk-mode parse performed by `get_risk_mode`, as a function of the
stored file: uppercase, fall back to NORMAL off the enum (missing file:
first-boot initialization to NORMAL). -/
def parsed_mode : Option RMFile → String
  | none => "NORMAL"
  | some d =>
    let mode := pyUpper d.mode
    if mode = "NORMAL" ∨ mode = "DEGRADED" ∨ mode = "HALT" then mode else "NORMAL"

/-- `get_risk_mode` parses the stored mode as `parsed_mode`. -/
theorem get_risk_mode_mode (s : SysState) :
    (get_risk_mode s).1.mode = parsed_mode s.riskMode := by
  unfold get_risk_mode ensure_risk_mode_file set_risk_mode parsed_mode
  cases h : s.riskMode
  · simp [h]
    with_unfolding_all decide
  · simp [h]

/-- `allow_close_trades` is the NORMAL/DEGRADED test on the parsed mode. -/
theorem allow_close_trades_fst (s : SysState) :
    (allow_close_trades s).1 =
      ((get_risk_mode s).1.mode == "NORMAL" || (get_risk_mode s).1.mode == "DEGRADED") := rfl

/-- State with an existing intent and a stored HALT mode (scenario S6). -/
def haltIntentState : SysState :=
  {emptyState with riskMode := some ⟨"HALT", "x"⟩, openIntentPresent := true}

/-- Witness for C2: intent present, stored mode HALT. -/
theorem open_issuer_safety_override_witness :
    pyUpper (load_risk_mode haltIntentState).mode ≠ "NORMAL" ∧
    (oms_open_main haltIntentState).openIntentPresent = false ∧
    (oms_open_main haltIntentState).omsOpenOut =
      some ⟨"OPEN_BLOCKED", some "RISK_MODE_HALT_OPEN_BLOCKED:x", some true, false⟩ := by
  have h : pyUpper (load_risk_mode haltIntentState).mode ≠ "NORMAL" := by
    with_unfolding_all decide
  have hmain := open_issuer_safety_override haltIntentState h
  refine ⟨h, hmain.1, ?_⟩
  rw [hmain.2]
  with_unfolding_all decide

/-- State whose stored risk mode is the unrecognized string `UNKNOWN`. -/
def unknownModeState : SysState := {emptyState with riskMode := some ⟨"UNKNOWN", "x"⟩}

/-- C4 counterexample: with the stored mode `UNKNOWN`, the open gate blocks
but `allow_close_trades` parses the mode as NORMAL and allows closes — the
claim that the close gate reports closes not allowed is false. -/
theorem unknown_mode_close_gate_counterexample :
    (is_open_allowed_by_mode (load_risk_mode unknownModeState)).1 = false ∧
    (allow_close_trades unknownModeState).1 = true := by
  with_unfolding_all decide

/-- C4 amended. For every risk-mode file whose stored mode does not
uppercase to NORMAL, DEGRADED or HALT (missing file included), the open
gate blocks opens, but the close gate maps the unrecognized mode to NORMAL
and allows closes. -/
theorem unknown_mode_gates (s : SysState)
    (h : ∀ rm, s.riskMode = some rm →
      pyUpper rm.mode ≠ "NORMAL" ∧ pyUpper rm.mode ≠ "DEGRADED" ∧ pyUpper rm.mode ≠ "HALT") :
    (is_open_allowed_by_mode (load_risk_mode s)).1 = false ∧
    (allow_close_trades s).1 = true := by
  have hclose : (allow_close_trades s).1 = true := by
    rw [allow_close_trades_fst, get_risk_mode_mode]
    rcases hrm : s.riskMode with _ | rm
    · rfl
    · obtain ⟨h1, h2, h3⟩ := h rm hrm
      simp only [parsed_mode]
      rw [if_neg (by simp [h1, h2, h3])]
      rfl
  refine ⟨?_, hclose⟩
  rcases hrm : s.riskMode with _ | rm
  · unfold load_risk_mode
    rw [hrm]
    with_unfolding_all decide
  · obtain ⟨h1, h2, h3⟩ := h rm hrm
    unfold load_risk_mode is_open_allowed_by_mode
    rw [hrm]
    simp only [if_neg h1, if_neg h2, if_neg h3]

/-- State whose stored risk mode is the unrecognized string `UNKNOWN`
(second copy, for the amended C4 theorem's witness). -/
def unknownModeState2 : SysState := {emptyState with riskMode := some ⟨"UNKNOWN", "y"⟩}

/-- Witness for C4's amended theorem at stored mode `UNKNOWN`. -/
theorem unknown_mode_gates_witness :
    (is_open_allowed_by_mode (load_risk_mode unknownModeState2)).1 = false ∧
    (allow_close_trades unknownModeState2).1 = true :=
  unknown_mode_gates unknownModeState2
    (by intro rm hrm
        have : rm = ⟨"UNKNOWN", "y"⟩ := by
          have h2 : unknownModeState2.riskMode = some (⟨"UNKNOWN", "y"⟩ : RMFile) := rfl
          rw [h2] at hrm
          exact (Option.some_inj.mp hrm.symm)
        rw [this]
        with_unfolding_all decide)

/-- First-boot initialization touches only the risk-mode file. -/
theorem ensure_risk_mode_file_closeIntent (s : SysState) :
    (ensure_risk_mode_file s).closeIntent = s.closeIntent := by
  unfold ensure_risk_mode_file set_risk_mode
  split <;> rfl

/-- First-boot initialization touches only the risk-mode file. -/
theorem ensure_risk_mode_file_positionsBook (s : SysState) :
    (ensure_risk_mode_file s).positionsBook = s.positionsBook := by
  unfold ensure_risk_mode_file set_risk_mode
  split <;> rfl

/-- C9. Stale-intent rejection is atomic: when the CLOSE executor gets past
its lock and risk-mode gates and finds an intent older than
`OMS_INTENT_MAX_AGE_SEC`, it writes state REJECT with the
`STALE_INTENT age_sec=.. > max_age=..` reason, retains the intent file, and
leaves the positions book unchanged. -/
theorem stale_intent_rejected (s : SysState) (now : ℚ) (max_age : ℤ)
    (intent : CloseIntent)
    (hlock : s.closeLockHeld = false)
    (hmode : (get_risk_mode s).1.mode = "NORMAL" ∨ (get_risk_mode s).1.mode = "DEGRADED")
    (hintent : s.closeIntent = some intent)
    (hstale : close_intent_age now intent > max_age) :
    (oms_close_main now max_age s).omsCloseOut = some ⟨"REJECT",
      some (s!"STALE_INTENT age_sec={intStr (close_intent_age now intent)} > max_age={intStr max_age}")⟩ ∧
    (oms_close_main now max_age s).closeIntent = some intent ∧
    (oms_close_main now max_age s).positionsBook = s.positionsBook := by
  have hintent2 : (get_risk_mode s).2.closeIntent = some intent := by
    show (ensure_risk_mode_file s).closeIntent = some intent
    rw [ensure_risk_mode_file_closeIntent, hintent]
  unfold oms_close_main
  rw [hlock]
  simp only [Bool.false_eq_true, if_false, hintent2]
  rw [if_neg (by simp only [not_not]; exact hmode), if_pos hstale]
  refine ⟨rfl, rfl, ?_⟩
  show (ensure_risk_mode_file s).positionsBook = s.positionsBook
  exact ensure_risk_mode_file_positionsBook s

/-- Concrete stale-intent state for the C9 witness (scenario S5: the intent
is 600 s old against a 300 s bound). -/
def staleIntentState : SysState :=
  ⟨some ⟨"NORMAL", "OK"⟩, some [⟨"SPY260320C00600000", 3⟩],
   some ⟨0, [⟨"SPY260320C00600000", "SELL", 1⟩]⟩,
   false, none, none, none, none, none, none, none, false⟩

/-- Witness for C9: age 600 s against `max_age = 300`. -/
theorem stale_intent_rejected_witness :
    (oms_close_main 600 300 staleIntentState).omsCloseOut = some ⟨"REJECT",
      some "STALE_INTENT age_sec=600 > max_age=300"⟩ ∧
    (oms_close_main 600 300 staleIntentState).closeIntent =
      some ⟨0, [⟨"SPY260320C00600000", "SELL", 1⟩]⟩ ∧
    (oms_close_main 600 300 staleIntentState).positionsBook =
      some [⟨"SPY260320C00600000", 3⟩] := by
  have h := stale_intent_rejected staleIntentState 600 300
    ⟨0, [⟨"SPY260320C00600000", "SELL", 1⟩]⟩ rfl
    (by left; with_unfolding_all rfl) rfl (by with_unfolding_all decide)
  refine ⟨?_, h.2.1, h.2.2.trans rfl⟩
  rw [h.1]
  have hage : close_intent_age 600 ⟨0, [⟨"SPY260320C00600000", "SELL", 1⟩]⟩ = 600 := by
    with_unfolding_all rfl
  rw [hage]
  with_unfolding_all decide

/-- `set_risk_mode` with the literal DEGRADED passes normalization. -/
theorem set_risk_mode_degraded (s : SysState) (r : String) :
    set_risk_mode s "DEGRADED" r = {s with riskMode := some ⟨"DEGRADED", r⟩} := by
  with_unfolding_all rfl

/-- `set_risk_mode` with the literal HALT passes normalization. -/
theorem set_risk_mode_halt (s : SysState) (r : String) :
    set_risk_mode s "HALT" r = {s with riskMode := some ⟨"HALT", r⟩} := by
  with_unfolding_all rfl

/-- First-boot initialization keeps an existing risk-mode file. -/
theorem ensure_risk_mode_file_riskMode_some (s : SysState) (rm : RMFile)
    (h : s.riskMode = some rm) : (ensure_risk_mode_file s).riskMode = some rm := by
  unfold ensure_risk_mode_file
  rw [h]
  exact h

/-- The CLOSE executor never rewrites an existing risk-mode file. -/
theorem oms_close_main_riskMode (s : SysState) (rm : RMFile) (now : ℚ) (max_age : ℤ)
    (h : s.riskMode = some rm) : (oms_close_main now max_age s).riskMode = some rm := by
  have hens := ensure_risk_mode_file_riskMode_some s rm h
  unfold oms_close_main
  simp only [get_risk_mode]
  split
  · exact h
  · repeat' split
    all_goals exact hens

/-- The OPEN issuer never rewrites the risk-mode file. -/
theorem oms_open_main_riskMode (s : SysState) :
    (oms_open_main s).riskMode = s.riskMode := by
  simp only [oms_open_main]
  repeat' split
  all_goals rfl

/-- The de-risk planner's `main` never rewrites the risk-mode file. -/
theorem derisk_plan_main_riskMode (s : SysState) :
    (derisk_plan_main s).riskMode = s.riskMode := by
  unfold derisk_plan_main
  split <;> rfl

/-- `derisk_execute` never rewrites the risk-mode file. -/
theorem derisk_execute_main_riskMode (s : SysState) (now : ℚ) :
    (derisk_execute_main now s).riskMode = s.riskMode := by
  unfold derisk_execute_main
  split
  · rfl
  · split <;> rfl

/-- C5. Partial-success downgrade: after the bounded de-risk reduction the
deallocation pass rewrites the risk mode to DEGRADED exactly when
`allowed_qty > 0` and to HALT when `allowed_qty = 0`; and of the embedded
stages only the risk evaluator (`portfolio_risk_main`) and the de-risk
planner's deallocation pass touch an existing risk-mode file — the CLOSE
executor, the OPEN issuer, the plan builder and the intent writer all
preserve it. -/
theorem derisk_partial_success_downgrade :
    (∀ (s : SysState) (plan : FinalPlan) (g : GreeksSnapshot) (long_row short_row : GreekRow),
      s.finalPlan = some plan → s.greeks = some g →
      g.positions.find? (fun p => p.symbol == plan.long_sym) = some long_row →
      g.positions.find? (fun p => p.symbol == plan.short_sym) = some short_row →
      long_row.net_qty ≠ 0 → short_row.net_qty ≠ 0 →
      (dealloc_main s).deallocOut = some ⟨"OK", plan.qty,
        max_qty_with_limits (dealloc_base g) (dealloc_inc long_row short_row)
          dealloc_limits plan.qty⟩ ∧
      (dealloc_main s).riskMode = some (
        if 0 < max_qty_with_limits (dealloc_base g) (dealloc_inc long_row short_row)
            dealloc_limits plan.qty then
          ⟨"DEGRADED", s!"DEALLOC_ALLOWED_QTY={intStr (max_qty_with_limits (dealloc_base g)
            (dealloc_inc long_row short_row) dealloc_limits plan.qty)}"⟩
        else ⟨"HALT", "DEALLOC_ZERO_ALLOWED"⟩)) ∧
    (∀ (s : SysState) (rm : RMFile) (now : ℚ) (max_age : ℤ), s.riskMode = some rm →
      (oms_close_main now max_age s).riskMode = some rm ∧
      (oms_open_main s).riskMode = some rm ∧
      (derisk_plan_main s).riskMode = some rm ∧
      (derisk_execute_main now s).riskMode = some rm) := by
  constructor
  · intro s plan g long_row short_row hplan hg hlong hshort hlnz hsnz
    unfold dealloc_main
    simp only [hplan, hg, hlong, hshort]
    rw [if_neg (by simp [hlnz, hsnz])]
    by_cases hpos : 0 < max_qty_with_limits (dealloc_base g)
        (dealloc_inc long_row short_row) dealloc_limits plan.qty
    · rw [if_pos hpos, if_pos hpos, set_risk_mode_degraded]
      exact ⟨rfl, rfl⟩
    · rw [if_neg hpos, if_neg hpos, set_risk_mode_halt]
      exact ⟨rfl, rfl⟩
  · intro s rm now max_age h
    refine ⟨oms_close_main_riskMode s rm now max_age h, ?_, ?_, ?_⟩
    · rw [oms_open_main_riskMode]
      exact h
    · rw [derisk_plan_main_riskMode]
      exact h
    · rw [derisk_execute_main_riskMode]
      exact h

/-- Concrete greeks snapshot for the C5 witness. -/
def deallocGreeks : GreeksSnapshot :=
  ⟨[⟨"L", 1, 1, 0, 0, 0, "NEWTON"⟩, ⟨"S", -1, -(1/2 : ℚ), 0, 0, 0, "NEWTON"⟩], ⟨0, 0, 0, 0⟩⟩

/-- Concrete state for the C5 witness: a final plan for 5 spreads over
legs L and S. -/
def deallocState : SysState :=
  ⟨some ⟨"HALT", "over"⟩, none, none, false, none, some deallocGreeks, none,
   some ⟨5, "L", "S"⟩, none, none, none, false⟩

/-- Witness for C5: all 5 requested spreads fit inside the limits, so the
deallocation pass downgrades HALT to DEGRADED; and a stage that is not a
risk-mode owner leaves an existing DEGRADED file in place. -/
theorem derisk_partial_success_downgrade_witness :
    ((dealloc_main deallocState).deallocOut = some ⟨"OK", 5, 5⟩ ∧
      (dealloc_main deallocState).riskMode = some ⟨"DEGRADED", "DEALLOC_ALLOWED_QTY=5"⟩) ∧
    (oms_open_main {emptyState with riskMode := some ⟨"DEGRADED", "d"⟩}).riskMode =
      some ⟨"DEGRADED", "d"⟩ := by
  have hq : max_qty_with_limits (dealloc_base deallocGreeks)
      (dealloc_inc ⟨"L", 1, 1, 0, 0, 0, "NEWTON"⟩ ⟨"S", -1, -(1/2 : ℚ), 0, 0, 0, "NEWTON"⟩)
      dealloc_limits 5 = 5 := by with_unfolding_all decide
  have h1 := derisk_partial_success_downgrade.1 deallocState ⟨5, "L", "S"⟩ deallocGreeks
    ⟨"L", 1, 1, 0, 0, 0, "NEWTON"⟩ ⟨"S", -1, -(1/2 : ℚ), 0, 0, 0, "NEWTON"⟩
    rfl rfl (by with_unfolding_all rfl) (by with_unfolding_all rfl)
    (by decide) (by decide)
  have h2 := (derisk_partial_success_downgrade.2
    {emptyState with riskMode := some ⟨"DEGRADED", "d"⟩} ⟨"DEGRADED", "d"⟩ 0 300 rfl).2.1
  refine ⟨⟨?_, ?_⟩, h2⟩
  · rw [h1.1, hq]
  · rw [h1.2, hq]
    with_unfolding_all decide

/-- The stage prefix actually launched and the halting stage, for any
outcome assignment: the steps are the longest prefix of the stage list up
to and including the first failure, and `halted_by` is that first failing
stage (`find?` returns `none` when all stages succeed, and `findIdx`
returns the list length, making `take (· + 1)` the whole list). -/
theorem tick_run_spec (outcome : String → Bool) (l : List String) :
    (tick_run outcome l).1.map TickStep.name =
      l.take (l.findIdx (fun n => !(outcome n)) + 1) ∧
    (tick_run outcome l).2 = l.find? (fun n => !(outcome n)) := by
  induction l with
  | nil => exact ⟨rfl, rfl⟩
  | cons n rest ih =>
    unfold tick_run
    by_cases h : outcome n = true
    · rw [if_pos h]
      constructor
      · simp only [List.map_cons, List.findIdx_cons, h, Bool.not_true, cond_false,
          List.take_succ_cons]
        rw [ih.1]
      · rw [List.find?_cons_of_neg _ (by simp [h])]
        exact ih.2
    · rw [if_neg h]
      rw [Bool.not_eq_true] at h
      constructor
      · simp only [List.map_cons, List.map_nil, List.findIdx_cons, h, Bool.not_false,
          cond_true, List.take_succ_cons, List.take_zero]
      · rw [List.find?_cons_of_pos _ (by simp [h])]

/-- C8 amended. Tick stage order and fatal-step halt, against the stage
list actually wired in `tick.main` (`greeks → risk-eval → derisk-plan →
derisk-exec → gateway → open → open-exec → close`; there is no ledger
stage): an uncontended tick launches exactly the stages up to and including
the first failure, in program order; `halted_by` is the first failing stage
(`none` when all succeed); and the tick-state write occurs, followed by the
lock release, as the last two events of the run. -/
theorem tick_stage_order (outcome : String → Bool) :
    (tick_main false outcome).steps.map TickStep.name =
      tick_stages.take (tick_stages.findIdx (fun n => !(outcome n)) + 1) ∧
    (tick_main false outcome).halted_by = tick_stages.find? (fun n => !(outcome n)) ∧
    (tick_main false outcome).events =
      ((tick_main false outcome).steps.map (fun st => TickEvent.runStage st.name)) ++
        [TickEvent.writeTickState, TickEvent.releaseLock] ∧
    (tick_main false outcome).ok = ((tick_main false outcome).halted_by == none) := by
  have h := tick_run_spec outcome tick_stages
  unfold tick_main
  refine ⟨h.1, h.2, rfl, ?_⟩
  simp only []
  cases (tick_run outcome tick_stages).2 <;> rfl

/-- Witness for C8's amended theorem: a run in which the risk evaluator
fails stops right after it, with the gateway and OMS stages never
launched. -/
theorem tick_stage_order_witness :
    (tick_main false (fun n => !(n == "risk_governor.portfolio_risk"))).steps.map
        TickStep.name = ["portfolio.greeks", "risk_governor.portfolio_risk"] ∧
    (tick_main false (fun n => !(n == "risk_governor.portfolio_risk"))).halted_by =
      some "risk_governor.portfolio_risk" ∧
    (tick_main false (fun n => !(n == "risk_governor.portfolio_risk"))).events =
      [TickEvent.runStage "portfolio.greeks",
       TickEvent.runStage "risk_governor.portfolio_risk",
       TickEvent.writeTickState, TickEvent.releaseLock] := by
  have h := tick_stage_order (fun n => !(n == "risk_governor.portfolio_risk"))
  have h1 : (tick_main false (fun n => !(n == "risk_governor.portfolio_risk"))).steps.map
      TickStep.name = ["portfolio.greeks", "risk_governor.portfolio_risk"] := by
    rw [h.1]
    decide
  have h2 : (tick_main false (fun n => !(n == "risk_governor.portfolio_risk"))).halted_by =
      some "risk_governor.portfolio_risk" := by
    rw [h.2.1]
    decide
  refine ⟨h1, h2, ?_⟩
  rw [h.2.2.1]
  rw [show (tick_main false (fun n => !(n == "risk_governor.portfolio_risk"))).steps =
    [⟨"portfolio.greeks", true⟩, ⟨"risk_governor.portfolio_risk", false⟩] from by decide]
  rfl

/-- C8 counterexample: on the concrete all-stages-succeed run, the tick
executes exactly eight stages, the first of which is the greeks builder;
no ledger stage (`positions_ledger`) is ever launched, so the claimed
nine-stage order starting with the ledger is false. -/
theorem tick_no_ledger_counterexample :
    (tick_main false (fun _ => true)).steps.map TickStep.name =
      ["portfolio.greeks", "risk_governor.portfolio_risk", "risk_governor.derisk_plan",
       "risk_governor.derisk_execute", "pretrade_gateway.gateway", "execution.oms_open",
       "execution.oms_open_exec", "execution.oms_close"] ∧
    ((tick_main false (fun _ => true)).steps.map TickStep.name).length = 8 ∧
    (∀ n ∈ (tick_main false (fun _ => true)).steps.map TickStep.name,
      n ≠ "portfolio.positions_ledger" ∧ n ≠ "services.portfolio.positions_ledger") ∧
    ((tick_main false (fun _ => true)).steps.map TickStep.name).head? ≠
      some "portfolio.positions_ledger" := by
  decide

/-- The third component of the evaluator's mode/reason/breaches triple is
the breach list in both branches. -/
theorem ite_pair_third {c : Prop} [Decidable c] {x₁ y₁ x₂ y₂ : String}
    {l : List String} : (if c then (x₁, y₁, l) else (x₂, y₂, l)).2.2 = l := by
  split <;> rfl

/-- With some total over its hard limit, `compute_breaches` emits HALT and
joins the breach messages. -/
theorem compute_breaches_pos (t : GreekTotals)
    (h : |t.delta| > 200 ∨ |t.gamma| > 10 ∨ |t.vega| > 20000) :
    (compute_breaches t load_limits).1 = "HALT" ∧
    (compute_breaches t load_limits).2.1 =
      String.intercalate " | " (compute_breaches t load_limits).2.2 := by
  unfold compute_breaches load_limits
  by_cases h1 : |t.delta| > 200 <;> by_cases h2 : |t.gamma| > 10 <;>
    by_cases h3 : |t.vega| > 20000 <;>
    first
      | (simp [h1, h2, h3]; done)
      | exact absurd h (by simp [h1, h2, h3])

/-- With all totals inside the hard limits, `compute_breaches` emits
NORMAL / OK and no breaches. -/
theorem compute_breaches_neg (t : GreekTotals)
    (h : ¬(|t.delta| > 200 ∨ |t.gamma| > 10 ∨ |t.vega| > 20000)) :
    compute_breaches t load_limits = ("NORMAL", "OK", []) := by
  push_neg at h
  unfold compute_breaches load_limits
  simp [not_lt.mpr h.1, not_lt.mpr h.2.1, not_lt.mpr h.2.2]

/-- Over the iv-source values the greeks builder actually emits, the
fallback test is exactly the presence of a `FALLBACK_DEFAULT` row. -/
theorem has_iv_fallback_iff (g : GreeksSnapshot)
    (hsrc : ∀ p ∈ g.positions,
      p.iv_src = "NEWTON" ∨ p.iv_src = "BISECT" ∨ p.iv_src = "FALLBACK_DEFAULT") :
    has_iv_fallback g = true ↔ ∃ p ∈ g.positions, p.iv_src = "FALLBACK_DEFAULT" := by
  unfold has_iv_fallback
  rw [List.any_eq_true]
  constructor
  · rintro ⟨p, hp, hcond⟩
    refine ⟨p, hp, ?_⟩
    rcases hsrc p hp with h | h | h
    · rw [h] at hcond
      exact absurd hcond (by with_unfolding_all decide)
    · rw [h] at hcond
      exact absurd hcond (by with_unfolding_all decide)
    · exact h
  · rintro ⟨p, hp, h⟩
    refine ⟨p, hp, ?_⟩
    rw [h]
    with_unfolding_all decide

/-- C3. The risk-evaluator decision: HALT with the joined breach list when
some absolute total exceeds its default limit (200 / 10 / 20000); otherwise
DEGRADED with `IV_FALLBACK_DEFAULT_PRESENT` when some row carries the
fallback iv source; otherwise NORMAL / OK. A breached delta contributes the
`DELTA_LIMIT <abs:.2f> > 200.0` message at the head of the breach list. The
iv-source hypothesis restricts rows to the values the greeks builder
writes. -/
theorem risk_evaluator_decision (s : SysState) (g : GreeksSnapshot)
    (hg : s.greeks = some g)
    (hsrc : ∀ p ∈ g.positions,
      p.iv_src = "NEWTON" ∨ p.iv_src = "BISECT" ∨ p.iv_src = "FALLBACK_DEFAULT") :
    ((|g.totals.delta| > 200 ∨ |g.totals.gamma| > 10 ∨ |g.totals.vega| > 20000) →
      (portfolio_risk_main s).riskMode = some ⟨"HALT",
        String.intercalate " | " (compute_breaches g.totals load_limits).2.2⟩) ∧
    (¬(|g.totals.delta| > 200 ∨ |g.totals.gamma| > 10 ∨ |g.totals.vega| > 20000) →
      (∃ p ∈ g.positions, p.iv_src = "FALLBACK_DEFAULT") →
      (portfolio_risk_main s).riskMode = some ⟨"DEGRADED", "IV_FALLBACK_DEFAULT_PRESENT"⟩) ∧
    (¬(|g.totals.delta| > 200 ∨ |g.totals.gamma| > 10 ∨ |g.totals.vega| > 20000) →
      (¬∃ p ∈ g.positions, p.iv_src = "FALLBACK_DEFAULT") →
      (portfolio_risk_main s).riskMode = some ⟨"NORMAL", "OK"⟩) ∧
    (|g.totals.delta| > 200 →
      (∃ rest, (compute_breaches g.totals load_limits).2.2 =
        (s!"DELTA_LIMIT {fmtFixed |g.totals.delta| 2} > {fmtFixed (200 : ℚ) 1}") :: rest) ∧
      fmtFixed (200 : ℚ) 1 = "200.0") := by
  refine ⟨?_, ?_, ?_, ?_⟩
  · intro hbr
    obtain ⟨hmode, hreason⟩ := compute_breaches_pos g.totals hbr
    unfold portfolio_risk_main
    rw [hg]
    simp only [Option.getD_some]
    rw [if_neg (by rw [hmode]; simp)]
    rw [hmode, hreason]
  · intro hbr hfb
    unfold portfolio_risk_main
    rw [hg]
    simp only [Option.getD_some]
    rw [compute_breaches_neg g.totals hbr]
    rw [if_pos ⟨rfl, (has_iv_fallback_iff g hsrc).mpr hfb⟩]
  · intro hbr hfb
    unfold portfolio_risk_main
    rw [hg]
    simp only [Option.getD_some]
    rw [compute_breaches_neg g.totals hbr]
    rw [if_neg (by
      rintro ⟨-, hfb2⟩
      exact hfb ((has_iv_fallback_iff g hsrc).mp hfb2))]
  · intro hd
    refine ⟨?_, by with_unfolding_all decide⟩
    simp only [compute_breaches, load_limits]
    rw [if_pos hd, ite_pair_third]
    exact ⟨_, rfl⟩

/-- State whose greeks snapshot carries totals `{delta=250, gamma=2,
vega=1000}` (scenario S2). -/
def haltTotalsState : SysState :=
  ⟨none, none, none, false, none, some ⟨[], ⟨250, 2, 1000, 0⟩⟩, none, none, none, none,
   none, false⟩

/-- Witness for C3: totals `{delta=250, gamma=2, vega=1000}` under the
default limits yield HALT with reason `DELTA_LIMIT 250.00 > 200.0`. -/
theorem risk_evaluator_decision_witness :
    (portfolio_risk_main haltTotalsState).riskMode =
      some ⟨"HALT", "DELTA_LIMIT 250.00 > 200.0"⟩ := by
  have h := (risk_evaluator_decision haltTotalsState ⟨[], ⟨250, 2, 1000, 0⟩⟩ rfl
    (by intro p hp; exact absurd hp (List.not_mem_nil p))).1
    (by left; with_unfolding_all decide)
  rw [h]
  have hbr : (compute_breaches (⟨250, 2, 1000, 0⟩ : GreekTotals) load_limits).2.2 =
      ["DELTA_LIMIT 250.00 > 200.0"] := by with_unfolding_all decide
  rw [hbr]
  rfl

/-- `rg_bs_price` on the degenerate branch is intrinsic value. -/
theorem rg_bs_price_intrinsic (S K r T iv : ℝ) (h : T ≤ 0 ∨ iv ≤ 0) (c : Bool) :
    rg_bs_price S K r T iv c = max 0 (if c then S - K else K - S) := by
  unfold rg_bs_price
  rw [if_pos h]

/-- `worst_1` of `decide_vertical_from_plan`. -/
noncomputable def rg_worst (env : RGEnv) (is_call : Bool) (K_long K_short : ℝ)
    (dte_days : ℤ) : ℝ :=
  min (rg_pnl_gap env is_call K_long K_short (rg_T dte_days))
    (rg_pnl_combo env is_call K_long K_short (rg_T dte_days))

/-- `int(max_trade_loss_usd // loss_mag)` on the loss branch
(`loss_mag = -worst_1` there). -/
noncomputable def rg_floor_contracts (env : RGEnv) (is_call : Bool)
    (K_long K_short : ℝ) (dte_days : ℤ) : ℤ :=
  ⌊env.account_equity * env.max_defined_risk_pct /
    -(rg_worst env is_call K_long K_short dte_days)⌋

/-- The environment of the C7 counterexample: defaults except both iv
defaults set to `-1` (read from `RISK_IV_LONG_DEFAULT`/`_SHORT_`), which
drives every leg through the intrinsic branch. -/
noncomputable def c7_env : RGEnv :=
  {spot_default := 600, risk_free_rate := 0.03, iv_long_default := -1,
   iv_short_default := -1, account_equity := 100000, max_defined_risk_pct := 0.02}

/-- `T` for a 365-day request. -/
theorem c7_T : rg_T 365 = 1 := by
  unfold rg_T
  rw [max_eq_left (by norm_num)]
  norm_num

/-- Gap-scenario PnL of the C7 counterexample put spread. -/
theorem c7_gap : rg_pnl_gap c7_env false 700 100 (rg_T 365) = 60 := by
  rw [c7_T]
  simp only [rg_pnl_gap, c7_env]
  rw [rg_bs_price_intrinsic _ _ _ _ _ (Or.inr (by norm_num)),
    rg_bs_price_intrinsic _ _ _ _ _ (Or.inr (by norm_num)),
    rg_bs_price_intrinsic _ _ _ _ _ (Or.inr (by norm_num)),
    rg_bs_price_intrinsic _ _ _ _ _ (Or.inr (by norm_num))]
  norm_num [max_def]

/-- Combo-scenario PnL of the C7 counterexample put spread (the code's
multiplicative vol shock keeps the intrinsic branch). -/
theorem c7_combo : rg_pnl_combo c7_env false 700 100 (rg_T 365) = 42 := by
  rw [c7_T]
  simp only [rg_pnl_combo, c7_env]
  rw [rg_bs_price_intrinsic _ _ _ _ _ (Or.inr (by norm_num)),
    rg_bs_price_intrinsic _ _ _ _ _ (Or.inr (by norm_num)),
    rg_bs_price_intrinsic _ _ _ _ _ (Or.inr (by norm_num)),
    rg_bs_price_intrinsic _ _ _ _ _ (Or.inr (by norm_num))]
  norm_num [max_def]

/-- The spec-worded (additive) combo PnL agrees on this input, so the
counterexample below refutes the claim under either reading of the
scenario-B shock. -/
theorem c7_spec_combo : spec_pnl_combo c7_env false 700 100 (rg_T 365) = 42 := by
  rw [c7_T]
  simp only [spec_pnl_combo, c7_env]
  rw [rg_bs_price_intrinsic _ _ _ _ _ (Or.inr (by norm_num)),
    rg_bs_price_intrinsic _ _ _ _ _ (Or.inr (by norm_num)),
    rg_bs_price_intrinsic _ _ _ _ _ (Or.inr (by norm_num)),
    rg_bs_price_intrinsic _ _ _ _ _ (Or.inr (by norm_num))]
  norm_num [max_def]

/-- C7 counterexample: on a put vertical whose worst scenario is a profit
(`worst_1 = 42 > 0`), the gateway grants `max_contracts = qty_requested =
100` and allows the trade, while the claimed formula
`⌊(equity·pct)/|worst_1|⌋` clipped to the request yields `47` — under the
spec's additive vol shock as well, since both shocks stay in the intrinsic
branch here. -/
theorem gateway_sizing_counterexample :
    (decide_vertical_from_plan c7_env "QQQ" false 700 100 365 100).max_contracts = 100 ∧
    (decide_vertical_from_plan c7_env "QQQ" false 700 100 365 100).allow = true ∧
    (decide_vertical_from_plan c7_env "QQQ" false 700 100 365 100).reasons = [] ∧
    min ⌊c7_env.account_equity * c7_env.max_defined_risk_pct /
      |min (rg_pnl_gap c7_env false 700 100 (rg_T 365))
        (spec_pnl_combo c7_env false 700 100 (rg_T 365))|⌋ 100 = 47 ∧
    spec_max_contracts c7_env false 700 100 365 100 = 47 ∧
    (100 : ℤ) ≠ 47 := by
  have hmin : min (rg_pnl_gap c7_env false 700 100 (rg_T 365))
      (rg_pnl_combo c7_env false 700 100 (rg_T 365)) = 42 := by
    rw [c7_gap, c7_combo]
    norm_num [min_def]
  have hminspec : min (rg_pnl_gap c7_env false 700 100 (rg_T 365))
      (spec_pnl_combo c7_env false 700 100 (rg_T 365)) = 42 := by
    rw [c7_gap, c7_spec_combo]
    norm_num [min_def]
  have hfloor : ⌊c7_env.account_equity * c7_env.max_defined_risk_pct / |(42 : ℝ)|⌋ = 47 := by
    show (⌊(100000 : ℝ) * 0.02 / |(42 : ℝ)|⌋ : ℤ) = 47
    rw [abs_of_pos (by norm_num)]
    rw [Int.floor_eq_iff]
    constructor <;> norm_num
  have hD : decide_vertical_from_plan c7_env "QQQ" false 700 100 365 100 =
      ⟨true, 100, [], rg_pnl_gap c7_env false 700 100 (rg_T 365),
        rg_pnl_combo c7_env false 700 100 (rg_T 365)⟩ := by
    unfold decide_vertical_from_plan
    rw [if_pos (by rw [hmin]; norm_num [max_def])]
  refine ⟨by rw [hD], by rw [hD], by rw [hD], ?_, ?_, by norm_num⟩
  · rw [hminspec, hfloor]
    norm_num [min_def]
  · simp only [spec_max_contracts]
    rw [hminspec, hfloor]
    norm_num [min_def]

/-- C7 amended. Gateway worst-case sizing as implemented: the per-trade
worst case on one spread is `min(PnL_A, PnL_B)` where scenario A shocks
spot by −10% with no vol shock and scenario B shocks spot by −7% with each
leg's sigma multiplied by 1.10; when the worst case is not a loss the
request is allowed at `qty_requested` with no reasons; when it is a loss,
`max_contracts = min(⌊(equity·max_defined_risk_pct)/|worst_1|⌋,
qty_requested)` and the request is rejected with
`SIZING_TO_ZERO_BY_LIMITS` exactly when the un-clipped floor is ≤ 0. -/
theorem gateway_sizing (env : RGEnv) (underlier : String) (is_call : Bool)
    (K_long K_short : ℝ) (dte_days qty_requested : ℤ) :
    (decide_vertical_from_plan env underlier is_call K_long K_short dte_days
        qty_requested).worst_pnl_gap10 =
      rg_pnl_gap env is_call K_long K_short (rg_T dte_days) ∧
    (decide_vertical_from_plan env underlier is_call K_long K_short dte_days
        qty_requested).worst_pnl_combo =
      rg_pnl_combo env is_call K_long K_short (rg_T dte_days) ∧
    (0 ≤ rg_worst env is_call K_long K_short dte_days →
      (decide_vertical_from_plan env underlier is_call K_long K_short dte_days
        qty_requested) = ⟨true, qty_requested, [],
          rg_pnl_gap env is_call K_long K_short (rg_T dte_days),
          rg_pnl_combo env is_call K_long K_short (rg_T dte_days)⟩) ∧
    (rg_worst env is_call K_long K_short dte_days < 0 →
      (decide_vertical_from_plan env underlier is_call K_long K_short dte_days
          qty_requested).max_contracts =
        min (rg_floor_contracts env is_call K_long K_short dte_days) qty_requested ∧
      ((decide_vertical_from_plan env underlier is_call K_long K_short dte_days
          qty_requested).allow = true ↔
        0 < rg_floor_contracts env is_call K_long K_short dte_days) ∧
      ((decide_vertical_from_plan env underlier is_call K_long K_short dte_days
          qty_requested).reasons = ["SIZING_TO_ZERO_BY_LIMITS"] ↔
        rg_floor_contracts env is_call K_long K_short dte_days ≤ 0) ∧
      |rg_worst env is_call K_long K_short dte_days| =
        -(rg_worst env is_call K_long K_short dte_days)) := by
  have hw : rg_worst env is_call K_long K_short dte_days =
      min (rg_pnl_gap env is_call K_long K_short (rg_T dte_days))
        (rg_pnl_combo env is_call K_long K_short (rg_T dte_days)) := rfl
  have hf : rg_floor_contracts env is_call K_long K_short dte_days =
      ⌊env.account_equity * env.max_defined_risk_pct /
        -(rg_worst env is_call K_long K_short dte_days)⌋ := rfl
  simp only [decide_vertical_from_plan]
  rw [← hw]
  refine ⟨?_, ?_, ?_, ?_⟩
  · split <;> rfl
  · split <;> rfl
  · intro hge
    rw [if_pos]
    rw [max_le_iff]
    exact ⟨le_refl 0, by linarith⟩
  · intro hlt
    have hmag : max 0 (-(rg_worst env is_call K_long K_short dte_days)) =
        -(rg_worst env is_call K_long K_short dte_days) := max_eq_right (by linarith)
    have hcond : ¬ (max 0 (-(rg_worst env is_call K_long K_short dte_days)) ≤ 0) := by
      rw [hmag]
      push_neg
      linarith
    rw [if_neg hcond]
    refine ⟨?_, ?_, ?_, abs_of_neg hlt⟩
    · show min ⌊env.account_equity * env.max_defined_risk_pct /
        max 0 (-(rg_worst env is_call K_long K_short dte_days))⌋ qty_requested = _
      rw [hmag, hf]
    · show (decide (⌊env.account_equity * env.max_defined_risk_pct /
        max 0 (-(rg_worst env is_call K_long K_short dte_days))⌋ > 0) = true) ↔ _
      rw [hmag, hf, decide_eq_true_eq]
    · show (if ⌊env.account_equity * env.max_defined_risk_pct /
          max 0 (-(rg_worst env is_call K_long K_short dte_days))⌋ ≤ 0 then
            ["SIZING_TO_ZERO_BY_LIMITS"] else []) = ["SIZING_TO_ZERO_BY_LIMITS"] ↔ _
      rw [hmag, hf]
      constructor
      · intro h
        by_contra hc
        rw [if_neg hc] at h
        exact List.cons_ne_nil _ _ h.symm
      · intro h
        rw [if_pos h]

/-- Witness for C7's amended theorem, at the counterexample input (worst
case is a profit, so the request is granted in full). -/
theorem gateway_sizing_witness :
    decide_vertical_from_plan c7_env "QQQ" false 700 100 365 100 =
      ⟨true, 100, [], rg_pnl_gap c7_env false 700 100 (rg_T 365),
        rg_pnl_combo c7_env false 700 100 (rg_T 365)⟩ :=
  (gateway_sizing c7_env "QQQ" false 700 100 365 100).2.2.1
    (by unfold rg_worst; rw [c7_gap, c7_combo]; norm_num [min_def])

/-- A two-position snapshot breaching only the vega band: closing the
top-scored row X slashes vega but swings the delta total from 10 to −40. -/
def c6_snapshot : GreeksSnapshot :=
  ⟨[⟨"X", 1, 50, 0, 20000, 0, "NEWTON"⟩, ⟨"Y", 1, -40, 0, 10000, 0, "NEWTON"⟩],
   ⟨10, 0, 30000, 0⟩⟩

set_option maxRecDepth 2400 in
/-- C6 counterexample: on `c6_snapshot` with the planner's default limits
and buffer (and a close budget of 2, ample for the run), the single step
actually taken moves the delta total from 10 to −40, so
`|total_delta'| ≤ |total_delta|` fails on that step. -/
theorem derisk_monotonicity_counterexample :
    (build_derisk_plan c6_snapshot derisk_hard_limits (9/10) 2).2 =
      [⟨⟨"X", 1, 50, 0, 20000, 0, "NEWTON"⟩, ⟨10, 0, 30000⟩, ⟨-40, 0, 10000⟩⟩] ∧
    ((build_derisk_plan c6_snapshot derisk_hard_limits (9/10) 2).2.any
      (fun st => decide (|st.before.delta| < |st.after.delta|))) = true := by
  constructor
  · with_unfolding_all rfl
  · with_unfolding_all rfl

/-- Factor extraction: a positive `over·red` product pins the axis above
its band and strictly shrinks it. -/
theorem over_red_pos (x lim dx : ℚ) (hpos : 0 < max 0 (|x| - lim) * red_amount x dx) :
    lim < |x| ∧ |x + dx| < |x| := by
  have hover : 0 < max 0 (|x| - lim) := by
    by_contra hc
    push_neg at hc
    rw [le_antisymm hc (le_max_left 0 _), zero_mul] at hpos
    exact lt_irrefl 0 hpos
  have hrednn : 0 ≤ red_amount x dx := le_max_left 0 _
  have hred : 0 < red_amount x dx := by
    by_contra hc
    push_neg at hc
    rw [le_antisymm hc hrednn, mul_zero] at hpos
    exact lt_irrefl 0 hpos
  constructor
  · rcases lt_max_iff.mp hover with h | h
    · exact absurd h (lt_irrefl 0)
    · linarith
  · unfold red_amount at hred
    rcases lt_max_iff.mp hred with h | h
    · exact absurd h (lt_irrefl 0)
    · linarith

/-- A positive greedy score exhibits an axis above the buffered band whose
absolute total strictly shrinks under the one-contract close effect. -/
theorem score_pos_softens (row : GreekRow) (t : Axes) (target : Lim)
    (h : 0 < score_row row t target) :
    (target.max_abs_delta < |t.delta| ∧
      |t.delta + (close_one_contract_effect row).delta| < |t.delta|) ∨
    (target.max_abs_gamma < |t.gamma| ∧
      |t.gamma + (close_one_contract_effect row).gamma| < |t.gamma|) ∨
    (target.max_abs_vega < |t.vega| ∧
      |t.vega + (close_one_contract_effect row).vega| < |t.vega|) := by
  simp only [score_row] at h
  have hvnn : 0 ≤ max 0 (|t.vega| - target.max_abs_vega) *
      red_amount t.vega (close_one_contract_effect row).vega :=
    mul_nonneg (le_max_left 0 _) (le_max_left 0 _)
  have hgnn : 0 ≤ max 0 (|t.gamma| - target.max_abs_gamma) *
      red_amount t.gamma (close_one_contract_effect row).gamma :=
    mul_nonneg (le_max_left 0 _) (le_max_left 0 _)
  have hdnn : 0 ≤ max 0 (|t.delta| - target.max_abs_delta) *
      red_amount t.delta (close_one_contract_effect row).delta :=
    mul_nonneg (le_max_left 0 _) (le_max_left 0 _)
  by_cases hv : 0 < max 0 (|t.vega| - target.max_abs_vega) *
      red_amount t.vega (close_one_contract_effect row).vega
  · exact Or.inr (Or.inr (over_red_pos _ _ _ hv))
  by_cases hgx : 0 < max 0 (|t.gamma| - target.max_abs_gamma) *
      red_amount t.gamma (close_one_contract_effect row).gamma
  · exact Or.inr (Or.inl (over_red_pos _ _ _ hgx))
  have hd : 0 < max 0 (|t.delta| - target.max_abs_delta) *
      red_amount t.delta (close_one_contract_effect row).delta := by
    push_neg at hv hgx
    have hv0 := le_antisymm hv hvnn
    have hg0 := le_antisymm hgx hgnn
    nlinarith [h, hv0, hg0]
  exact Or.inl (over_red_pos _ _ _ hd)

/-- The step-trace invariant of the greedy loop: every property holding on
each step taken with a positive score (with `after = before + effect`)
holds on every recorded step. -/
theorem derisk_loop_trace_inv (target : Lim) (maxc : ℕ) (P : StepTrace → Prop)
    (hP : ∀ row totals, 0 < score_row row totals target →
      P ⟨row, totals, ⟨totals.delta + (close_one_contract_effect row).delta,
        totals.gamma + (close_one_contract_effect row).gamma,
        totals.vega + (close_one_contract_effect row).vega⟩⟩) :
    ∀ fuel closed work totals acts tr, (∀ st ∈ tr, P st) →
      ∀ st ∈ (derisk_loop target maxc fuel closed work totals acts tr).2.2, P st := by
  intro fuel
  induction fuel with
  | zero =>
    intro closed work totals acts tr htr st hst
    exact htr st hst
  | succ n ih =>
    intro closed work totals acts tr htr st hst
    simp only [derisk_loop] at hst
    split at hst
    · split at hst
      · exact htr st hst
      · split at hst
        · exact htr st hst
        · next hscore =>
          split at hst
          · exact ih _ _ _ _ _ htr st hst
          · refine ih _ _ _ _ _ ?_ st hst
            intro st' hst'
            rcases List.mem_append.mp hst' with hmem | hmem
            · exact htr st' hmem
            · rw [List.mem_singleton.mp hmem]
              exact hP _ _ (lt_of_not_le hscore)
    · exact htr st hst

/-- C6 amended. Per-axis monotonicity does not hold; what every actually
taken step guarantees is that some axis above its buffered target strictly
shrinks in absolute value (the picked score is positive, and each positive
score term forces its axis's reduction). -/
theorem derisk_step_softens (g : GreeksSnapshot) (hard : Lim) (pct : ℚ) (maxc : ℕ) :
    ∀ st ∈ (build_derisk_plan g hard pct maxc).2,
      ((buffered_limits hard pct).max_abs_delta < |st.before.delta| ∧
        |st.after.delta| < |st.before.delta|) ∨
      ((buffered_limits hard pct).max_abs_gamma < |st.before.gamma| ∧
        |st.after.gamma| < |st.before.gamma|) ∨
      ((buffered_limits hard pct).max_abs_vega < |st.before.vega| ∧
        |st.after.vega| < |st.before.vega|) := by
  intro st hst
  simp only [build_derisk_plan] at hst
  split at hst
  · exact absurd hst (List.not_mem_nil st)
  · refine derisk_loop_trace_inv (buffered_limits hard pct) maxc
      (fun st => ((buffered_limits hard pct).max_abs_delta < |st.before.delta| ∧
          |st.after.delta| < |st.before.delta|) ∨
        ((buffered_limits hard pct).max_abs_gamma < |st.before.gamma| ∧
          |st.after.gamma| < |st.before.gamma|) ∨
        ((buffered_limits hard pct).max_abs_vega < |st.before.vega| ∧
          |st.after.vega| < |st.before.vega|)) ?_ _ _ _ _ _ _
      (fun st' hst' => absurd hst' (List.not_mem_nil st')) st hst
    intro row totals hscore
    exact score_pos_softens row totals (buffered_limits hard pct) hscore

set_option maxRecDepth 2400 in
/-- Witness for C6's amended theorem: on `c6_snapshot` the recorded step
softens the breached vega axis. -/
theorem derisk_step_softens_witness :
    ((buffered_limits derisk_hard_limits (9/10)).max_abs_delta <
        |(⟨10, 0, 30000⟩ : Axes).delta| ∧
      |(⟨-40, 0, 10000⟩ : Axes).delta| < |(⟨10, 0, 30000⟩ : Axes).delta|) ∨
    ((buffered_limits derisk_hard_limits (9/10)).max_abs_gamma <
        |(⟨10, 0, 30000⟩ : Axes).gamma| ∧
      |(⟨-40, 0, 10000⟩ : Axes).gamma| < |(⟨10, 0, 30000⟩ : Axes).gamma|) ∨
    ((buffered_limits derisk_hard_limits (9/10)).max_abs_vega <
        |(⟨10, 0, 30000⟩ : Axes).vega| ∧
      |(⟨-40, 0, 10000⟩ : Axes).vega| < |(⟨10, 0, 30000⟩ : Axes).vega|) :=
  derisk_step_softens c6_snapshot derisk_hard_limits (9/10) 2
    ⟨⟨"X", 1, 50, 0, 20000, 0, "NEWTON"⟩, ⟨10, 0, 30000⟩, ⟨-40, 0, 10000⟩⟩
    (by
      have h : (build_derisk_plan c6_snapshot derisk_hard_limits (9/10) 2).2 =
          [⟨⟨"X", 1, 50, 0, 20000, 0, "NEWTON"⟩, ⟨10, 0, 30000⟩, ⟨-40, 0, 10000⟩⟩] := by
        with_unfolding_all rfl
      rw [h]
      exact List.Mem.head _)

/-! ### Reduce-only soundness infrastructure -/

/-- Stable insertion is a permutation. -/
theorem sInsert_perm (le : α → α → Bool) (x : α) (l : List α) :
    (sInsert le x l).Perm (x :: l) := by
  induction l with
  | nil => exact List.Perm.refl _
  | cons y ys ih =>
    unfold sInsert
    split
    · exact List.Perm.refl _
    · exact (ih.cons y).trans (List.Perm.swap x y ys)

/-- The stable sort is a permutation. -/
theorem sSort_perm (le : α → α → Bool) (l : List α) : (sSort le l).Perm l := by
  induction l with
  | nil => exact List.Perm.refl _
  | cons x xs ih => exact (sInsert_perm le x (sSort le xs)).trans (ih.cons x)

/-- Keys with no duplicates, the standing invariant of every Python dict
in the executor. -/
def NodupKeys (m : PosMap) : Prop := (m.map Prod.fst).Nodup

/-- Lookup after overwrite. -/
theorem mapGet_mapSet (m : PosMap) (k : String) (v : Int) (j : String) :
    mapGet (mapSet m k v) j = if j = k then v else mapGet m j := by
  induction m with
  | nil =>
    by_cases h : j = k
    · simp [mapSet, mapGet, h]
    · simp [mapSet, mapGet, h, Ne.symm h]
  | cons p rest ih =>
    unfold mapSet
    by_cases hpk : p.1 = k
    · rw [if_pos (by simp [hpk])]
      by_cases h : j = k
      · simp [mapGet, h]
      · simp only [mapGet, List.find?_cons]
        rw [if_neg h]
        have h1 : ((k, v).1 == j) = false := by simp [Ne.symm h]
        have h2 : (p.1 == j) = false := by simp [hpk, Ne.symm h]
        simp [h1, h2, mapGet]
    · rw [if_neg (by simp [hpk])]
      by_cases hpj : p.1 = j
      · have h : j ≠ k := by rw [← hpj]; exact hpk
        simp [mapGet, List.find?_cons, hpj, h]
      · simp only [mapGet, List.find?_cons]
        have h2 : (p.1 == j) = false := by simp [hpj]
        simp only [h2]
        exact ih

/-- Lookup of another key is unchanged by `pop`. -/
theorem mapGet_mapPop_ne (m : PosMap) (k j : String) (h : j ≠ k) :
    mapGet (mapPop m k) j = mapGet m j := by
  induction m with
  | nil => rfl
  | cons p rest ih =>
    unfold mapPop
    by_cases hpk : p.1 = k
    · rw [if_pos (by simp [hpk])]
      simp only [mapGet, List.find?_cons]
      have : (p.1 == j) = false := by simp [hpk, Ne.symm h]
      simp [this, mapGet]
    · rw [if_neg (by simp [hpk])]
      by_cases hpj : p.1 = j
      · simp [mapGet, List.find?_cons, hpj]
      · simp only [mapGet, List.find?_cons]
        have : (p.1 == j) = false := by simp [hpj]
        simp only [this]
        exact ih

/-- An absent key reads as zero. -/
theorem mapGet_not_mem (m : PosMap) (k : String) (h : k ∉ m.map Prod.fst) :
    mapGet m k = 0 := by
  induction m with
  | nil => rfl
  | cons p rest ih =>
    simp only [List.map_cons, List.mem_cons, not_or] at h
    simp only [mapGet, List.find?_cons]
    have : (p.1 == k) = false := by simp [Ne.symm h.1]
    simp only [this]
    exact ih h.2

/-- Popping under unique keys empties the popped key. -/
theorem mapGet_mapPop_self (m : PosMap) (k : String) (h : NodupKeys m) :
    mapGet (mapPop m k) k = 0 := by
  induction m with
  | nil => rfl
  | cons p rest ih =>
    unfold NodupKeys at h
    simp only [List.map_cons, List.nodup_cons] at h
    unfold mapPop
    by_cases hpk : p.1 = k
    · rw [if_pos (by simp [hpk])]
      exact mapGet_not_mem rest k (by rw [← hpk]; exact h.1)
    · rw [if_neg (by simp [hpk])]
      simp only [mapGet, List.find?_cons]
      have : (p.1 == k) = false := by simp [hpk]
      simp only [this]
      exact ih h.2

/-- Keys of the overwritten map sit inside `k :: keys`. -/
theorem mem_keys_mapSet (m : PosMap) (k : String) (v : Int) (x : String)
    (h : x ∈ (mapSet m k v).map Prod.fst) : x = k ∨ x ∈ m.map Prod.fst := by
  induction m with
  | nil =>
    simp [mapSet] at h
    exact Or.inl h
  | cons p rest ih =>
    unfold mapSet at h
    by_cases hpk : p.1 = k
    · rw [if_pos (by simp [hpk])] at h
      simp only [List.map_cons, List.mem_cons] at h
      rcases h with h | h
      · exact Or.inl h
      · exact Or.inr (by simp [h])
    · rw [if_neg (by simp [hpk])] at h
      simp only [List.map_cons, List.mem_cons] at h ⊢
      rcases h with h | h
      · exact Or.inr (Or.inl h)
      · rcases ih h with h2 | h2
        · exact Or.inl h2
        · exact Or.inr (Or.inr h2)

/-- Overwrite preserves key uniqueness. -/
theorem nodupKeys_mapSet (m : PosMap) (k : String) (v : Int) (h : NodupKeys m) :
    NodupKeys (mapSet m k v) := by
  induction m with
  | nil => simp [mapSet, NodupKeys]
  | cons p rest ih =>
    unfold NodupKeys at h ⊢
    simp only [List.map_cons, List.nodup_cons] at h
    unfold mapSet
    by_cases hpk : p.1 = k
    · rw [if_pos (by simp [hpk])]
      simp only [List.map_cons, List.nodup_cons]
      exact ⟨by rw [← hpk]; exact h.1, h.2⟩
    · rw [if_neg (by simp [hpk])]
      simp only [List.map_cons, List.nodup_cons]
      refine ⟨?_, ih h.2⟩
      intro hmem
      rcases mem_keys_mapSet rest k v p.1 hmem with h2 | h2
      · exact hpk h2
      · exact h.1 h2

/-- Keys of the popped map sit inside the original keys. -/
theorem mem_keys_mapPop (m : PosMap) (k : String) (x : String)
    (h : x ∈ (mapPop m k).map Prod.fst) : x ∈ m.map Prod.fst := by
  induction m with
  | nil => simpa [mapPop] using h
  | cons p rest ih =>
    unfold mapPop at h
    by_cases hpk : p.1 = k
    · rw [if_pos (by simp [hpk])] at h
      simp [h]
    · rw [if_neg (by simp [hpk])] at h
      simp only [List.map_cons, List.mem_cons] at h ⊢
      rcases h with h | h
      · exact Or.inl h
      · exact Or.inr (ih h)

/-- Pop preserves key uniqueness. -/
theorem nodupKeys_mapPop (m : PosMap) (k : String) (h : NodupKeys m) :
    NodupKeys (mapPop m k) := by
  induction m with
  | nil => exact h
  | cons p rest ih =>
    unfold NodupKeys at h ⊢
    simp only [List.map_cons, List.nodup_cons] at h
    unfold mapPop
    by_cases hpk : p.1 = k
    · rw [if_pos (by simp [hpk])]
      exact h.2
    · rw [if_neg (by simp [hpk])]
      simp only [List.map_cons, List.nodup_cons]
      exact ⟨fun hmem => h.1 (mem_keys_mapPop rest k p.1 hmem), ih h.2⟩

/-- The materialized book has unique keys. -/
theorem nodupKeys_positions_to_map (book : List PosEntry) :
    NodupKeys (positions_to_map book) := by
  unfold positions_to_map
  have : ∀ (b : List PosEntry) (acc : PosMap), NodupKeys acc →
      NodupKeys (b.foldl
        (fun m p => if p.symbol ≠ "" then mapSet m p.symbol p.net_qty else m) acc) := by
    intro b
    induction b with
    | nil => intro acc h; exact h
    | cons p rest ih =>
      intro acc h
      simp only [List.foldl_cons]
      split
      · exact ih _ (nodupKeys_mapSet acc p.symbol p.net_qty h)
      · exact ih _ h
  exact this book [] (by simp [NodupKeys])

/-- What the validator's acceptance means for one action against the book:
a live position, a positive quantity, and the sign-matching side with
quantity bounded by the exposure. -/
def okAction (m : PosMap) (a : CloseAction) : Prop :=
  mapGet m a.symbol ≠ 0 ∧ 0 < a.qty ∧
  (0 < mapGet m a.symbol → a.close_side = "SELL" ∧ a.qty ≤ mapGet m a.symbol) ∧
  (mapGet m a.symbol < 0 → a.close_side = "BUY" ∧ a.qty ≤ -(mapGet m a.symbol))

/-- A fill leaves other symbols untouched. -/
theorem apply_fill_get_ne (m : PosMap) (sym side : String) (qty : Int) (j : String)
    (h : j ≠ sym) : mapGet (apply_fill m sym side qty) j = mapGet m j := by
  simp only [apply_fill]
  repeat' split
  all_goals first
    | rw [mapGet_mapPop_ne _ _ _ h, mapGet_mapSet, if_neg h]
    | rw [mapGet_mapSet, if_neg h]

/-- A fill updates its own symbol to the side-adjusted net (reading zero
after the flat-entry pop). -/
theorem apply_fill_get_self (m : PosMap) (sym side : String) (qty : Int)
    (hNK : NodupKeys m) :
    mapGet (apply_fill m sym side qty) sym =
      (if side = "SELL" then mapGet m sym - qty
       else if side = "BUY" then mapGet m sym + qty else mapGet m sym) := by
  simp only [apply_fill]
  repeat' split
  all_goals first
    | rw [mapGet_mapSet, if_pos rfl]
    | (rename_i h0; rw [mapGet_mapPop_self _ _ (nodupKeys_mapSet m sym _ hNK), ← h0])

/-- A fill preserves key uniqueness. -/
theorem nodupKeys_apply_fill (m : PosMap) (sym side : String) (qty : Int)
    (h : NodupKeys m) : NodupKeys (apply_fill m sym side qty) := by
  simp only [apply_fill]
  repeat' split
  all_goals first
    | exact nodupKeys_mapPop _ _ (nodupKeys_mapSet m sym _ h)
    | exact nodupKeys_mapSet m sym _ h

/-- One validator-accepted fill shrinks the filled symbol's absolute
exposure and preserves its sign (or flattens it), leaving every other
symbol unchanged. -/
theorem apply_fill_sound (m : PosMap) (a : CloseAction) (hNK : NodupKeys m)
    (hok : okAction m a) (j : String) :
    |mapGet (apply_fill m a.symbol a.close_side a.qty) j| ≤ |mapGet m j| ∧
    (Int.sign (mapGet (apply_fill m a.symbol a.close_side a.qty) j) =
        Int.sign (mapGet m j) ∨
      mapGet (apply_fill m a.symbol a.close_side a.qty) j = 0) := by
  by_cases hj : j = a.symbol
  · subst hj
    rw [apply_fill_get_self m a.symbol a.close_side a.qty hNK]
    obtain ⟨hnz, hqty, hpos, hneg⟩ := hok
    rcases lt_trichotomy (mapGet m a.symbol) 0 with hlt | heq | hgt
    · obtain ⟨hside, hle⟩ := hneg hlt
      rw [hside]
      rw [if_neg (by decide), if_pos rfl]
      have hv : mapGet m a.symbol + a.qty ≤ 0 := by linarith
      constructor
      · rw [abs_of_nonpos hv, abs_of_neg hlt]
        linarith
      · by_cases hz : mapGet m a.symbol + a.qty = 0
        · exact Or.inr hz
        · left
          rw [Int.sign_eq_neg_one_of_neg (lt_of_le_of_ne hv hz),
            Int.sign_eq_neg_one_of_neg hlt]
    · exact absurd heq hnz
    · obtain ⟨hside, hle⟩ := hpos hgt
      rw [hside, if_pos rfl]
      have hv : 0 ≤ mapGet m a.symbol - a.qty := by linarith
      constructor
      · rw [abs_of_nonneg hv, abs_of_pos hgt]
        linarith
      · by_cases hz : mapGet m a.symbol - a.qty = 0
        · exact Or.inr hz
        · left
          rw [Int.sign_eq_one_of_pos (lt_of_le_of_ne hv (Ne.symm hz)),
            Int.sign_eq_one_of_pos hgt]
  · rw [apply_fill_get_ne m a.symbol a.close_side a.qty j hj]
    exact ⟨le_refl _, Or.inl rfl⟩

/-- The batch fold: with unique keys, pairwise-distinct action symbols and
every action validator-accepted against the starting book, every symbol's
absolute exposure shrinks and its sign is preserved or flattened. -/
theorem apply_fills_sound :
    ∀ (as : List CloseAction) (m : PosMap), NodupKeys m →
      as.Pairwise (fun x y => x.symbol ≠ y.symbol) →
      (∀ a ∈ as, okAction m a) →
      ∀ j, |mapGet (apply_fills m as) j| ≤ |mapGet m j| ∧
        (Int.sign (mapGet (apply_fills m as) j) = Int.sign (mapGet m j) ∨
          mapGet (apply_fills m as) j = 0) := by
  intro as
  induction as with
  | nil =>
    intro m _ _ _ j
    exact ⟨le_refl _, Or.inl rfl⟩
  | cons a rest ih =>
    intro m hNK hpair hok j
    obtain ⟨hfirst, hpair'⟩ := List.pairwise_cons.mp hpair
    have hstep := apply_fill_sound m a hNK (hok a (List.mem_cons_self a rest))
    have hNK' := nodupKeys_apply_fill m a.symbol a.close_side a.qty hNK
    have hok' : ∀ b ∈ rest, okAction (apply_fill m a.symbol a.close_side a.qty) b := by
      intro b hb
      have hne : b.symbol ≠ a.symbol := Ne.symm (hfirst b hb)
      unfold okAction
      rw [apply_fill_get_ne m a.symbol a.close_side a.qty b.symbol hne]
      exact hok b (List.mem_cons_of_mem a hb)
    have hrest := ih (apply_fill m a.symbol a.close_side a.qty) hNK' hpair' hok' j
    have hfold : apply_fills m (a :: rest) =
        apply_fills (apply_fill m a.symbol a.close_side a.qty) rest := rfl
    rw [hfold]
    refine ⟨le_trans hrest.1 (hstep j).1, ?_⟩
    rcases hrest.2 with hs | hz
    · rcases (hstep j).2 with hs2 | hz2
      · exact Or.inl (hs.trans hs2)
      · right
        have h0 : |mapGet (apply_fills (apply_fill m a.symbol a.close_side a.qty) rest) j| = 0 :=
          le_antisymm (hrest.1.trans_eq (abs_eq_zero.mpr hz2)) (abs_nonneg _)
        exact abs_eq_zero.mp h0
    · exact Or.inr hz

/-- The validator's per-action breach contribution (the loop body of
`validate_reduce_only`, factored for the proofs). -/
def vBreach (pos_map : PosMap) (a : CloseAction) : List String :=
  let sym := a.symbol
  let side := a.close_side
  let qty := a.qty
  let net := mapGet pos_map sym
  if net = 0 then
    [s!"REDUCE_ONLY_VIOLATION {sym} net=0 action={side} qty={intStr qty}"]
  else if net > 0 then
    (if side ≠ "SELL" then
      [s!"REDUCE_ONLY_VIOLATION {sym} net={intStr net} requires SELL got {side}"]
    else []) ++
    (if qty > net then
      [s!"REDUCE_ONLY_VIOLATION {sym} qty {intStr qty} > net {intStr net}"]
    else [])
  else
    (if side ≠ "BUY" then
      [s!"REDUCE_ONLY_VIOLATION {sym} net={intStr net} requires BUY got {side}"]
    else []) ++
    (if qty > -net then
      [s!"REDUCE_ONLY_VIOLATION {sym} qty {intStr qty} > abs(net) {intStr (-net)}"]
    else [])

/-- The validator is the fold that appends each action's contribution. -/
theorem validate_eq_fold (as : List CloseAction) (m : PosMap) (acc : List String) :
    as.foldl
      (fun breaches a =>
        let sym := a.symbol
        let side := a.close_side
        let qty := a.qty
        let net := mapGet m sym
        if net = 0 then
          breaches ++ [s!"REDUCE_ONLY_VIOLATION {sym} net=0 action={side} qty={intStr qty}"]
        else if net > 0 then
          breaches ++
            (if side ≠ "SELL" then
              [s!"REDUCE_ONLY_VIOLATION {sym} net={intStr net} requires SELL got {side}"]
            else []) ++
            (if qty > net then
              [s!"REDUCE_ONLY_VIOLATION {sym} qty {intStr qty} > net {intStr net}"]
            else [])
        else
          breaches ++
            (if side ≠ "BUY" then
              [s!"REDUCE_ONLY_VIOLATION {sym} net={intStr net} requires BUY got {side}"]
            else []) ++
            (if qty > -net then
              [s!"REDUCE_ONLY_VIOLATION {sym} qty {intStr qty} > abs(net) {intStr (-net)}"]
            else []))
      acc = as.foldl (fun breaches a => breaches ++ vBreach m a) acc := by
  refine List.foldl_ext _ _ acc ?_
  intro br a _
  simp only [vBreach]
  split
  · rfl
  · split
    · rw [List.append_assoc]
    · rw [List.append_assoc]

/-- Pulling the accumulator out of the appending fold. -/
theorem fold_append_acc (m : PosMap) :
    ∀ (as : List CloseAction) (acc : List String),
      as.foldl (fun breaches a => breaches ++ vBreach m a) acc =
        acc ++ as.foldl (fun breaches a => breaches ++ vBreach m a) [] := by
  intro as
  induction as with
  | nil => intro acc; simp
  | cons a rest ih =>
    intro acc
    simp only [List.foldl_cons]
    rw [ih (acc ++ vBreach m a), ih ([] ++ vBreach m a)]
    simp [List.append_assoc]

/-- An accepted batch has no per-action contribution. -/
theorem validate_nil_ok (as : List CloseAction) (m : PosMap)
    (h : validate_reduce_only as m = []) : ∀ a ∈ as, vBreach m a = [] := by
  have hfold : validate_reduce_only as m =
      as.foldl (fun breaches a => breaches ++ vBreach m a) [] := validate_eq_fold as m []
  rw [hfold] at h
  clear hfold
  induction as with
  | nil => intro a ha; exact absurd ha (List.not_mem_nil a)
  | cons a rest ih =>
    simp only [List.foldl_cons] at h
    rw [fold_append_acc m rest] at h
    rcases List.append_eq_nil.mp h with ⟨h1, h2⟩
    intro b hb
    rcases List.mem_cons.mp hb with rfl | hbr
    · simpa using h1
    · exact ih h2 b hbr

/-- An empty contribution is exactly validator acceptance of the action. -/
theorem vBreach_nil_iff_ok (m : PosMap) (a : CloseAction) (h : vBreach m a = []) :
    mapGet m a.symbol ≠ 0 ∧
    (0 < mapGet m a.symbol → a.close_side = "SELL" ∧ a.qty ≤ mapGet m a.symbol) ∧
    (mapGet m a.symbol < 0 → a.close_side = "BUY" ∧ a.qty ≤ -(mapGet m a.symbol)) := by
  simp only [vBreach] at h
  by_cases h0 : mapGet m a.symbol = 0
  · rw [if_pos h0] at h
    exact absurd h (by simp)
  · rw [if_neg h0] at h
    refine ⟨h0, ?_, ?_⟩
    · intro hgt
      rw [if_pos hgt] at h
      rcases List.append_eq_nil.mp h with ⟨h1, h2⟩
      constructor
      · by_contra hc
        rw [if_pos hc] at h1
        exact List.cons_ne_nil _ _ h1
      · by_contra hc
        push_neg at hc
        rw [if_pos hc] at h2
        exact List.cons_ne_nil _ _ h2
    · intro hlt
      rw [if_neg (not_lt.mpr (le_of_lt hlt))] at h
      rcases List.append_eq_nil.mp h with ⟨h1, h2⟩
      constructor
      · by_contra hc
        rw [if_pos hc] at h1
        exact List.cons_ne_nil _ _ h1
      · by_contra hc
        push_neg at hc
        rw [if_pos hc] at h2
        exact List.cons_ne_nil _ _ h2

/-- Normalized batches: pairwise-distinct `(symbol, close_side)` keys and
strictly positive quantities. -/
theorem normalize_actions_spec (raw : List CloseAction) :
    (normalize_actions raw).Pairwise
      (fun x y => (x.symbol, x.close_side) ≠ (y.symbol, y.close_side)) ∧
    ∀ a ∈ normalize_actions raw, 0 < a.qty := by
  have hagg : ∀ (l : List CloseAction) (acc : List ((String × String) × Int)),
      acc.Pairwise (fun x y => x.1 ≠ y.1) → (∀ kv ∈ acc, 0 < kv.2) →
      (l.foldl
        (fun acc a =>
          let sym := pyStrip a.symbol
          let side := pyStrip (pyUpper a.close_side)
          let qty := a.qty
          if sym = "" ∨ (side ≠ "BUY" ∧ side ≠ "SELL") ∨ qty ≤ 0 then acc
          else
            match acc.find? (fun kv => kv.1 == (sym, side)) with
            | some _ =>
                acc.map (fun kv => if kv.1 == (sym, side) then (kv.1, kv.2 + qty) else kv)
            | none => acc ++ [((sym, side), qty)])
        acc).Pairwise (fun x y => x.1 ≠ y.1) ∧
      ∀ kv ∈ (l.foldl
        (fun acc a =>
          let sym := pyStrip a.symbol
          let side := pyStrip (pyUpper a.close_side)
          let qty := a.qty
          if sym = "" ∨ (side ≠ "BUY" ∧ side ≠ "SELL") ∨ qty ≤ 0 then acc
          else
            match acc.find? (fun kv => kv.1 == (sym, side)) with
            | some _ =>
                acc.map (fun kv => if kv.1 == (sym, side) then (kv.1, kv.2 + qty) else kv)
            | none => acc ++ [((sym, side), qty)])
        acc), 0 < kv.2 := by
    intro l
    induction l with
    | nil => intro acc h1 h2; exact ⟨h1, h2⟩
    | cons a rest ih =>
      intro acc h1 h2
      simp only [List.foldl_cons]
      by_cases hskip : pyStrip a.symbol = "" ∨
          (pyStrip (pyUpper a.close_side) ≠ "BUY" ∧ pyStrip (pyUpper a.close_side) ≠ "SELL") ∨
          a.qty ≤ 0
      · rw [if_pos hskip]
        exact ih acc h1 h2
      · rw [if_neg hskip]
        have hqty : 0 < a.qty := by
          push_neg at hskip
          exact hskip.2.2
        rcases hfind : acc.find?
            (fun kv => kv.1 == (pyStrip a.symbol, pyStrip (pyUpper a.close_side))) with
          _ | found
        all_goals simp only [hfind]
        · refine ih _ ?_ ?_
          · rw [List.pairwise_append]
            refine ⟨h1, List.pairwise_singleton _ _, ?_⟩
            intro x hx y hy
            rw [List.mem_singleton.mp hy]
            have := List.find?_eq_none.mp hfind x hx
            simpa using this
          · intro kv hkv
            rcases List.mem_append.mp hkv with hm | hm
            · exact h2 kv hm
            · rw [List.mem_singleton.mp hm]
              exact hqty
        · have hfst : ∀ kv : (String × String) × Int,
              (if kv.1 == (pyStrip a.symbol, pyStrip (pyUpper a.close_side)) then
                (kv.1, kv.2 + a.qty) else kv).1 = kv.1 := by
            intro kv
            split <;> rfl
          refine ih _ ?_ ?_
          · rw [List.pairwise_map]
            refine h1.imp_of_mem ?_
            intro x y _ _ hxy hcon
            rw [hfst x, hfst y] at hcon
            exact hxy hcon
          · intro kv hkv
            rcases List.mem_map.mp hkv with ⟨kv0, hkv0, hkveq⟩
            rw [← hkveq]
            split
            · show (0 : Int) < kv0.2 + a.qty
              have := h2 kv0 hkv0
              linarith
            · exact h2 kv0 hkv0
  have hmain := hagg raw [] (List.Pairwise.nil) (by intro kv h; exact absurd h (List.not_mem_nil kv))
  simp only [normalize_actions]
  constructor
  · refine ((sSort_perm _ _).pairwise_iff ?_).mpr ?_
    · intro x y h
      exact Ne.symm h
    · rw [List.pairwise_map]
      refine hmain.1.imp_of_mem ?_
      intro x y _ _ hxy hcon
      exact hxy (Prod.ext (congrArg Prod.fst hcon) (congrArg Prod.snd hcon))
  · intro b hb
    have hb2 := (sSort_perm _ _).mem_iff.mp hb
    rcases List.mem_map.mp hb2 with ⟨kv, hkv, hkveq⟩
    rw [← hkveq]
    exact hmain.2 kv hkv

/-- In an accepted batch the symbols themselves are pairwise distinct: two
actions on one symbol would need opposite sides, and the validator pins the
side to the position's sign. -/
theorem accepted_symbols_pairwise (as : List CloseAction) (m : PosMap)
    (hkeys : as.Pairwise (fun x y => (x.symbol, x.close_side) ≠ (y.symbol, y.close_side)))
    (hacc : ∀ a ∈ as, vBreach m a = []) :
    as.Pairwise (fun x y => x.symbol ≠ y.symbol) := by
  refine hkeys.imp_of_mem ?_
  intro a b ha hb hkey hsame
  obtain ⟨hnz, hpos, hneg⟩ := vBreach_nil_iff_ok m a (hacc a ha)
  obtain ⟨hnz2, hpos2, hneg2⟩ := vBreach_nil_iff_ok m b (hacc b hb)
  rcases lt_trichotomy (mapGet m a.symbol) 0 with hlt | heq | hgt
  · have h1 := (hneg hlt).1
    have h2 := (hneg2 (by rw [← hsame]; exact hlt)).1
    exact hkey (by rw [h1, h2, hsame])
  · exact hnz heq
  · have h1 := (hpos hgt).1
    have h2 := (hpos2 (by rw [← hsame]; exact hgt)).1
    exact hkey (by rw [h1, h2, hsame])

/-- C1. Reduce-only soundness of the CLOSE executor. First part: for every
raw batch and positions book, if the validator accepts the normalized batch
then applying all fills leaves every symbol with `|net'| ≤ |net|` and its
sign preserved or flattened. Second part: reaching the validation with any
breach rejects the entire batch with reason `REDUCE_ONLY_VIOLATION`,
leaving the positions book and the intent file unchanged. -/
theorem close_reduce_only_soundness :
    (∀ (raw : List CloseAction) (book : List PosEntry),
      validate_reduce_only (normalize_actions raw) (positions_to_map book) = [] →
      ∀ sym,
        |mapGet (apply_fills (positions_to_map book) (normalize_actions raw)) sym| ≤
          |mapGet (positions_to_map book) sym| ∧
        (Int.sign (mapGet (apply_fills (positions_to_map book) (normalize_actions raw)) sym) =
            Int.sign (mapGet (positions_to_map book) sym) ∨
          mapGet (apply_fills (positions_to_map book) (normalize_actions raw)) sym = 0)) ∧
    (∀ (s : SysState) (now : ℚ) (max_age : ℤ) (intent : CloseIntent),
      s.closeLockHeld = false →
      ((get_risk_mode s).1.mode = "NORMAL" ∨ (get_risk_mode s).1.mode = "DEGRADED") →
      s.closeIntent = some intent →
      ¬(close_intent_age now intent > max_age) →
      normalize_actions intent.actions ≠ [] →
      validate_reduce_only (normalize_actions intent.actions)
        (positions_to_map ((s.positionsBook).getD [])) ≠ [] →
      (oms_close_main now max_age s).omsCloseOut =
        some ⟨"REJECT", some "REDUCE_ONLY_VIOLATION"⟩ ∧
      (oms_close_main now max_age s).positionsBook = s.positionsBook ∧
      (oms_close_main now max_age s).closeIntent = some intent) := by
  constructor
  · intro raw book hval sym
    have hNK := nodupKeys_positions_to_map book
    have hspec := normalize_actions_spec raw
    have hacc := validate_nil_ok _ _ hval
    have hpair := accepted_symbols_pairwise _ _ hspec.1 hacc
    refine apply_fills_sound _ _ hNK hpair ?_ sym
    intro a ha
    obtain ⟨hnz, hp, hn⟩ := vBreach_nil_iff_ok _ a (hacc a ha)
    exact ⟨hnz, hspec.2 a ha, hp, hn⟩
  · intro s now max_age intent hlock hmode hintent hfresh hne hbr
    have hintent2 : (get_risk_mode s).2.closeIntent = some intent := by
      show (ensure_risk_mode_file s).closeIntent = some intent
      rw [ensure_risk_mode_file_closeIntent, hintent]
    have hbook : (get_risk_mode s).2.positionsBook = s.positionsBook :=
      ensure_risk_mode_file_positionsBook s
    have hempty : (normalize_actions intent.actions).isEmpty = false := by
      cases h : normalize_actions intent.actions with
      | nil => exact absurd h hne
      | cons a l => rfl
    have hbempty : (validate_reduce_only (normalize_actions intent.actions)
        (positions_to_map ((s.positionsBook).getD []))).isEmpty = false := by
      cases h : validate_reduce_only (normalize_actions intent.actions)
          (positions_to_map ((s.positionsBook).getD [])) with
      | nil => exact absurd h hbr
      | cons a l => rfl
    unfold oms_close_main
    rw [hlock]
    simp only [Bool.false_eq_true, if_false, hintent2]
    rw [if_neg (by simp only [not_not]; exact hmode), if_neg hfresh]
    rw [hbook]
    simp only [hempty, Bool.false_eq_true, if_false, hbempty, not_false_eq_true, if_true]
    exact ⟨trivial, trivial, trivial⟩

/-- Concrete state for the C1 witness's rejection half (scenario S4: a BUY
close action against a long position of 3). -/
def c1RejectState : SysState :=
  ⟨some ⟨"NORMAL", "OK"⟩, some [⟨"A", 3⟩], some ⟨0, [⟨"A", "BUY", 1⟩]⟩,
   false, none, none, none, none, none, none, none, false⟩

/-- Witness for C1: an accepted SELL-2-of-3 batch shrinks the position and
keeps its sign, and a BUY action against a long position rejects the batch
with the book untouched. -/
theorem close_reduce_only_soundness_witness :
    (|mapGet (apply_fills (positions_to_map [⟨"A", 3⟩])
        (normalize_actions [⟨"A", "SELL", 2⟩])) "A"| ≤
      |mapGet (positions_to_map [⟨"A", 3⟩]) "A"| ∧
      (Int.sign (mapGet (apply_fills (positions_to_map [⟨"A", 3⟩])
          (normalize_actions [⟨"A", "SELL", 2⟩])) "A") =
        Int.sign (mapGet (positions_to_map [⟨"A", 3⟩]) "A") ∨
        mapGet (apply_fills (positions_to_map [⟨"A", 3⟩])
          (normalize_actions [⟨"A", "SELL", 2⟩])) "A" = 0)) ∧
    ((oms_close_main 0 300 c1RejectState).omsCloseOut =
        some ⟨"REJECT", some "REDUCE_ONLY_VIOLATION"⟩ ∧
      (oms_close_main 0 300 c1RejectState).positionsBook = some [⟨"A", 3⟩] ∧
      (oms_close_main 0 300 c1RejectState).closeIntent = some ⟨0, [⟨"A", "BUY", 1⟩]⟩) := by
  constructor
  · exact close_reduce_only_soundness.1 [⟨"A", "SELL", 2⟩] [⟨"A", 3⟩]
      (by with_unfolding_all decide) "A"
  · have h := close_reduce_only_soundness.2 c1RejectState 0 300 ⟨0, [⟨"A", "BUY", 1⟩]⟩
      rfl (by left; with_unfolding_all rfl) rfl (by with_unfolding_all decide)
      (by with_unfolding_all decide) (by with_unfolding_all decide)
    exact ⟨h.1, h.2.1.trans rfl, h.2.2⟩

end NeuroxOptions
